import Mathlib

/-! # Ferriem/gin: the JWT login and gate of `code/jwt/jwt.go`, and the todo handlers of
`code/To_do/To_do.go`

The handlers of the repository are embedded as pure functions.

* A Go `string` that a handler compares with a literal, prints or puts into a body is a Lean
  `String` (a Go string that is not valid UTF-8 has no counterpart). The token string that
  `ParseToken` receives is the list of its bytes, so that it ranges over every Go string;
  `[]byte` is a `List Nat` of values below 256.
* `time.Now()` is an explicit argument: an instant is an `Int`, the nanoseconds since the Unix
  epoch. `Time.Unix()` is the floor of the instant to whole seconds and `Time.Add` the sum. A
  `time.Time` keeps its seconds since year 1 in an `int64`, so it holds the Unix seconds `s`
  with `-2 ^ 63 ≤ s + unixToInternal < 2 ^ 63`; where a theorem compares instants in the plain
  order it says which seconds it takes in that range.
* A handler's use of its `*gin.Context` and of standard output is the list of the calls it
  makes, in program order (`Effect`). A runtime panic ends the list with `Effect.panic`.
* The packages the repository imports but does not contain (`golang-jwt/jwt/v4`,
  `encoding/base64`, `encoding/json`, `crypto/hmac`, `crypto/sha256`, `crypto/sha512`) enter
  `jwt.go` through the record `JwtLib`. The functions of `jwt.go` are defined for every such
  record; `jwtv4` is the record that follows the packages' published behaviour, down to the
  bytes of a token.
* The table of `To_do.go` is the list of its rows; `gorm` is followed as far as the two
  handlers with a validation step use it.

The definitions come first, the theorems after them: lemmas about the imported packages, then
the properties C1 to C10.
-/

namespace GinJwt

/-! ## Values shared by the handlers -/

/-- A JSON value as the handlers build it with `gin.H`: a number, a string, or a nested
`gin.H` whose values are strings (`gin.H{"token": tokenString}`). The fields are listed in the
order the source writes them. -/
inductive Val where
  | num (n : Int)
  | str (s : String)
  | obj (fields : List (String × String))
  deriving DecidableEq, Repr

/-- The body type `gin.H` (`map[string]interface{}`). -/
abbrev H := List (String × Val)

/-- One observable call of a handler, in program order. -/
inductive Effect where
  /-- The call `c.JSON(status, body)`. -/
  | JSON (status : Nat) (body : H)
  /-- The call `fmt.Println(s)`. -/
  | Println (s : String)
  /-- The call `c.Abort()`. -/
  | Abort
  /-- The call `c.Set(key, value)`. -/
  | Set (key value : String)
  /-- The call `c.Next()`: the downstream handlers run here. -/
  | Next
  /-- A runtime panic (index out of range, nil pointer dereference). -/
  | panic
  deriving DecidableEq, Repr

/-- The constant `http.StatusOK`. -/
def StatusOK : Nat := 200

/-- The UTF-8 bytes of one character. -/
def utf8 (c : Char) : List Nat :=
  let n := c.toNat
  if n < 0x80 then [n]
  else if n < 0x800 then [0xC0 + n / 64, 0x80 + n % 64]
  else if n < 0x10000 then [0xE0 + n / 4096, 0x80 + n / 64 % 64, 0x80 + n % 64]
  else [0xF0 + n / 262144, 0x80 + n / 4096 % 64, 0x80 + n / 64 % 64, 0x80 + n % 64]

/-- The conversion `[]byte(s)`. -/
def toBytes (s : List Char) : List Nat := s.flatMap utf8

/-! ## The data of `jwt.go` -/

/-- The struct `UserInfo` (jwt.go:14-17); both fields carry `binding:"required"`. -/
structure UserInfo where
  Username : String
  Password : String
  deriving DecidableEq, Repr

/-- The struct `jwt.StandardClaims` of golang-jwt v4, with its JSON names
`aud, exp, jti, iat, iss, nbf, sub`. -/
structure StandardClaims where
  Audience : String
  ExpiresAt : Int
  Id : String
  IssuedAt : Int
  Issuer : String
  NotBefore : Int
  Subject : String
  deriving DecidableEq, Repr

/-- The struct `storage` (jwt.go:19-22): a username and the embedded standard claims. -/
structure storage where
  Username : String
  StandardClaims : StandardClaims
  deriving DecidableEq, Repr

/-- The dynamic type behind the interface value `token.Claims`: the `*storage` the caller
supplied, or anything else. -/
inductive Claims where
  | storage (c : storage)
  | other
  deriving DecidableEq, Repr

/-- The fields of `jwt.Token` that `ParseToken` reads. -/
structure Token where
  Claims : Claims
  Valid : Bool
  deriving DecidableEq, Repr

/-- A non-nil `error` of the JWT package: the bit set `ValidationError.Errors`. -/
structure JwtError where
  Errors : Nat
  deriving DecidableEq, Repr

/-- The imported JWT package, as far as `jwt.go` calls it.
`SignedString t key` is `jwt.NewWithClaims(jwt.SigningMethodHS256, t).SignedString(key)`;
`ParseWithClaims s key now` is `jwt.ParseWithClaims(s, &storage{}, keyFunc)` with a `keyFunc`
that returns `(key, nil)`, run when `time.Now()` is `now`; the string `s` is given by its
bytes. A returned pointer or error that is `nil` is `none`. -/
structure JwtLib where
  SignedString : storage → List Nat → String × Option JwtError
  ParseWithClaims : List Nat → List Nat → Int → Option Token × Option JwtError

/-- What a function that may panic hands back. -/
inductive Outcome (α : Type) where
  | ret (a : α)
  | panic
  deriving DecidableEq, Repr

/-- The constant `time.Second`, in nanoseconds. -/
def Second : Int := 1000000000

/-- The constant `time.Minute`. -/
def Minute : Int := 60 * Second

/-- The method `Time.Unix()`: whole seconds since the epoch, rounded down. -/
def Unix (t : Int) : Int := t / Second

/-- The constant `TokenExpireDuration = time.Minute * 2` (jwt.go:24). -/
def TokenExpireDuration : Int := Minute * 2

/-- The variable `Secret = []byte("secret")` (jwt.go:26). -/
def Secret : List Nat := [115, 101, 99, 114, 101, 116]

/-- The function `GenToken` (jwt.go:28-38), called when `time.Now()` is `now`. -/
def GenToken (lib : JwtLib) (now : Int) (username : String) : String × Option JwtError :=
  let t : storage :=
    { Username := username
      StandardClaims :=
        { Audience := "", ExpiresAt := Unix (now + TokenExpireDuration), Id := "",
          IssuedAt := 0, Issuer := "ferriem", NotBefore := 0, Subject := "" } }
  lib.SignedString t Secret

/-- The function `ParseToken` (jwt.go:40-51), on a token string given by its bytes. Reading
`token.Claims` through a nil `token` panics. The type assertion `token.Claims.(*storage)`
succeeds on `Claims.storage`. -/
def ParseToken (lib : JwtLib) (now : Int) (tokenString : List Nat) :
    Outcome (Option storage × Option JwtError) :=
  match lib.ParseWithClaims tokenString Secret now with
  | (token, err) =>
    if err ≠ none then .ret (none, err)
    else
      match token with
      | none => .panic
      | some tok =>
        match tok.Claims with
        | .storage claims => if tok.Valid then .ret (some claims, none) else .ret (none, err)
        | .other => .ret (none, err)

/-- The call `c.ShouldBind(&user)` (jwt.go:55) on a body that decodes to `decoded` (`none`
when the body cannot be decoded into a `UserInfo`): the `binding:"required"` tags reject a
field left at its zero value. -/
def ShouldBind (decoded : Option UserInfo) : Option UserInfo :=
  match decoded with
  | none => none
  | some user => if user.Username = "" ∨ user.Password = "" then none else some user

/-- The handler `authHandler` (jwt.go:53-79). The text `fmt.Println(err)` prints is not
followed: any error prints `error`. -/
def authHandler (lib : JwtLib) (now : Int) (decoded : Option UserInfo) : List Effect :=
  match ShouldBind decoded with
  | none => [.JSON StatusOK [("code", .num 404), ("msg", .str "invalid params")]]
  | some user =>
    if user.Username = "root" ∧ user.Password = "123456" then
      match GenToken lib now user.Username with
      | (tokenString, err) =>
        (match err with
          | some _ => [Effect.Println "error"]
          | none => []) ++
        [.JSON StatusOK
          [("code", .num 200), ("msg", .str "success"), ("data", .obj [("token", tokenString)])]]
    else
      [.JSON StatusOK [("code", .num 400), ("msg", .str "auth failed")]]

/-- The first occurrence of `sep` in `s`: the text before it and the text after it
(`strings.Index` and the two slices `genSplit` takes). -/
def cut (sep : Char) : List Char → Option (List Char × List Char)
  | [] => none
  | c :: cs =>
    if c = sep then some ([], cs)
    else
      match cut sep cs with
      | none => none
      | some (a, b) => some (c :: a, b)

/-- The function `strings.SplitN(s, sep, n)` for a one-byte separator and `n ≥ 0`: at most `n`
pieces, the last one the unsplit remainder. -/
def splitN (sep : Char) : Nat → List Char → List (List Char)
  | 0, _ => []
  | 1, s => [s]
  | n + 2, s =>
    match cut sep s with
    | none => [s]
    | some (a, b) => a :: splitN sep (n + 1) b

/-- The call `strings.SplitN(s, " ", n)`. -/
def SplitN (s : String) (n : Nat) : List String :=
  (splitN ' ' n s.data).map String.mk

/-- The handler returned by `JWTAuthMiddleware` (jwt.go:81-116), run on a request whose
`Authorization` header reads `authHeader` (`""` when the request has none). -/
def JWTAuthMiddleware (lib : JwtLib) (now : Int) (authHeader : String) : List Effect :=
  if authHeader = "" then
    [.JSON StatusOK [("code", .num 400), ("msg", .str "authHeader empty")],
     .Println "authHeader empty",
     .Abort]
  else
    let parts := SplitN authHeader 2
    match parts[0]? with
    | none => [.panic]
    | some p0 =>
      .Println p0 ::
      if ¬ (parts.length = 2 ∧ p0 = "Bearer") then
        [.JSON StatusOK [("code", .num 404), ("msg", .str "authHeader format error")],
         .Abort]
      else
        match parts[1]? with
        | none => [.panic]
        | some p1 =>
          match ParseToken lib now (toBytes p1.data) with
          | .panic => [.panic]
          | .ret (msg, err) =>
            if err ≠ none then
              [.JSON StatusOK [("code", .num 400), ("msg", .str "token invalid")],
               .Abort]
            else
              match msg with
              | none => [.panic]
              | some m => [.Set "username" m.Username, .Println m.Username, .Next]

/-! ## The imported packages

What follows is not code of the repository: these definitions follow the published behaviour
of the Go standard library and of `github.com/golang-jwt/jwt/v4` (v4.2.0 and later, with the
package's default settings: `DecodeStrict` and `DecodePaddingAllowed`, where a version has
them, are off), which `jwt.go` imports. They make up the record `jwtv4` that the functions of
`jwt.go` are run with. -/

/-! ### `string(b)`: UTF-8 -/

/-- A continuation byte `10xxxxxx`. -/
def isCont (b : Nat) : Bool := 0x80 ≤ b && b < 0xC0

/-- The function `utf8.DecodeRune`: the first rune of `bs` and its width; a byte that starts
no well-formed sequence is U+FFFD of width 1. -/
def decodeRune (bs : List Nat) : Char × Nat :=
  match bs with
  | [] => (Char.ofNat 0xFFFD, 1)
  | b0 :: r0 =>
    if b0 < 0x80 then (Char.ofNat b0, 1)
    else
      match r0 with
      | [] => (Char.ofNat 0xFFFD, 1)
      | b1 :: r1 =>
        if 0xC2 ≤ b0 ∧ b0 < 0xE0 then
          if isCont b1 then (Char.ofNat ((b0 - 0xC0) * 64 + (b1 - 0x80)), 2)
          else (Char.ofNat 0xFFFD, 1)
        else
          match r1 with
          | [] => (Char.ofNat 0xFFFD, 1)
          | b2 :: r2 =>
            if 0xE0 ≤ b0 ∧ b0 < 0xF0 then
              if isCont b1 ∧ isCont b2 ∧ (b0 = 0xE0 → 0xA0 ≤ b1) ∧ (b0 = 0xED → b1 < 0xA0) then
                (Char.ofNat ((b0 - 0xE0) * 4096 + (b1 - 0x80) * 64 + (b2 - 0x80)), 3)
              else (Char.ofNat 0xFFFD, 1)
            else
              match r2 with
              | [] => (Char.ofNat 0xFFFD, 1)
              | b3 :: _ =>
                if 0xF0 ≤ b0 ∧ b0 < 0xF5 ∧ isCont b1 ∧ isCont b2 ∧ isCont b3
                    ∧ (b0 = 0xF0 → 0x90 ≤ b1) ∧ (b0 = 0xF4 → b1 < 0x90) then
                  (Char.ofNat ((b0 - 0xF0) * 262144 + (b1 - 0x80) * 4096 + (b2 - 0x80) * 64
                    + (b3 - 0x80)), 4)
                else (Char.ofNat 0xFFFD, 1)

/-- The runes of a byte string, read left to right (`fuel` bounds the number of runes). -/
def runes : Nat → List Nat → List Char
  | 0, _ => []
  | fuel + 1, bs =>
    match bs with
    | [] => []
    | _ :: _ => (decodeRune bs).1 :: runes fuel (bs.drop (decodeRune bs).2)

/-- The runes of `bs`. -/
def fromBytes (bs : List Nat) : List Char := runes bs.length bs

/-! ### `encoding/base64`: `RawURLEncoding` -/

/-- The byte of a 6-bit value in the URL alphabet `A-Z a-z 0-9 - _`. -/
def encodeStd (n : Nat) : Nat :=
  if n < 26 then n + 65 else if n < 52 then n + 71 else if n < 62 then n - 4
  else if n = 62 then 45 else 95

/-- The 6-bit value of a byte of the URL alphabet. -/
def decodeVal (n : Nat) : Option Nat :=
  if 65 ≤ n ∧ n ≤ 90 then some (n - 65)
  else if 97 ≤ n ∧ n ≤ 122 then some (n - 71)
  else if 48 ≤ n ∧ n ≤ 57 then some (n + 4)
  else if n = 45 then some 62
  else if n = 95 then some 63
  else none

/-- Unpadded base64 of a byte string: three bytes make four characters, a remainder of one
or two bytes makes two or three. -/
def encodeQuanta : List Nat → List Nat
  | a :: b :: c :: rest =>
    encodeStd (a / 4) :: encodeStd (a % 4 * 16 + b / 16) :: encodeStd (b % 16 * 4 + c / 64)
      :: encodeStd (c % 64) :: encodeQuanta rest
  | [a, b] => [encodeStd (a / 4), encodeStd (a % 4 * 16 + b / 16), encodeStd (b % 16 * 4)]
  | [a] => [encodeStd (a / 4), encodeStd (a % 4 * 16)]
  | [] => []

/-- The function `jwt.EncodeSegment`: `base64.RawURLEncoding.EncodeToString`; the bytes of the
string it returns. -/
def EncodeSegment (seg : List Nat) : List Nat := encodeQuanta seg

/-- Unpadded base64 decoding without the strict flag: a final group of two or three characters
gives one or two bytes and its unused low bits are not looked at; a final group of one
character, or a byte outside the alphabet, is an error. -/
def decodeQuanta : List Nat → Option (List Nat)
  | c0 :: c1 :: c2 :: c3 :: rest =>
    match decodeVal c0, decodeVal c1, decodeVal c2, decodeVal c3, decodeQuanta rest with
    | some v0, some v1, some v2, some v3, some bs =>
      some ((v0 * 4 + v1 / 16) :: (v1 % 16 * 16 + v2 / 4) :: (v2 % 4 * 64 + v3) :: bs)
    | _, _, _, _, _ => none
  | [c0, c1, c2] =>
    match decodeVal c0, decodeVal c1, decodeVal c2 with
    | some v0, some v1, some v2 => some [v0 * 4 + v1 / 16, v1 % 16 * 16 + v2 / 4]
    | _, _, _ => none
  | [c0, c1] =>
    match decodeVal c0, decodeVal c1 with
    | some v0, some v1 => some [v0 * 4 + v1 / 16]
    | _, _ => none
  | [_] => none
  | [] => some []

/-- The function `jwt.DecodeSegment` on the bytes of a segment:
`base64.RawURLEncoding.DecodeString`, which skips the bytes `\r` (13) and `\n` (10). -/
def DecodeSegment (seg : List Nat) : Option (List Nat) :=
  decodeQuanta (seg.filter fun c => c ≠ 13 ∧ c ≠ 10)

/-! ### `crypto/sha256`, `crypto/sha512`, `crypto/hmac` -/

/-- The parameters of a SHA-2 hash (FIPS 180-4): word size, round constants, initial state,
rotation and shift amounts, digest length in bytes. -/
structure Sha2 where
  w : Nat
  K : List Nat
  IV : List Nat
  bigSigma0 : Nat × Nat × Nat
  bigSigma1 : Nat × Nat × Nat
  smallSigma0 : Nat × Nat × Nat
  smallSigma1 : Nat × Nat × Nat
  outBytes : Nat

/-- Rotation of a `w`-bit word to the right. -/
def rotr (w x n : Nat) : Nat := (x >>> n ||| x <<< (w - n)) % 2 ^ w

/-- The functions Σ0 and Σ1: three rotations. -/
def bigSigma (w : Nat) (r : Nat × Nat × Nat) (x : Nat) : Nat :=
  rotr w x r.1 ^^^ rotr w x r.2.1 ^^^ rotr w x r.2.2

/-- The functions σ0 and σ1: two rotations and a shift. -/
def smallSigma (w : Nat) (r : Nat × Nat × Nat) (x : Nat) : Nat :=
  rotr w x r.1 ^^^ rotr w x r.2.1 ^^^ x >>> r.2.2

/-- The rounds of the compression function, one per round constant; `win` holds the sixteen
most recent words of the message schedule. -/
def rounds (p : Sha2) : List Nat → List Nat → List Nat → List Nat
  | [], _, st => st
  | k :: ks, win, st =>
    let m := 2 ^ p.w
    let a := st.getD 0 0
    let b := st.getD 1 0
    let c := st.getD 2 0
    let d := st.getD 3 0
    let e := st.getD 4 0
    let f := st.getD 5 0
    let g := st.getD 6 0
    let h := st.getD 7 0
    let ch := (e &&& f) ^^^ ((e ^^^ (m - 1)) &&& g)
    let maj := (a &&& b) ^^^ (a &&& c) ^^^ (b &&& c)
    let t1 := (h + bigSigma p.w p.bigSigma1 e + ch + k + win.getD 0 0) % m
    let t2 := (bigSigma p.w p.bigSigma0 a + maj) % m
    let wnew := (smallSigma p.w p.smallSigma1 (win.getD 14 0) + win.getD 9 0
      + smallSigma p.w p.smallSigma0 (win.getD 1 0) + win.getD 0 0) % m
    rounds p ks (win.tail ++ [wnew]) [(t1 + t2) % m, a, b, c, (d + t1) % m, e, f, g]

/-- The big-endian value of a byte string. -/
def beWord : List Nat → Nat := List.foldl (fun acc b => acc * 256 + b) 0

/-- The `n` big-endian bytes of `x`. -/
def beBytes : Nat → Nat → List Nat
  | 0, _ => []
  | n + 1, x => beBytes n (x / 256) ++ [x % 256]

/-- The first `n` words of `size` bytes each. -/
def toWords (size : Nat) : Nat → List Nat → List Nat
  | 0, _ => []
  | n + 1, bs => beWord (bs.take size) :: toWords size n (bs.drop size)

/-- The compression of one block into the state. -/
def compress (p : Sha2) (st : List Nat) (block : List Nat) : List Nat :=
  List.zipWith (fun x y => (x + y) % 2 ^ p.w) st (rounds p p.K (toWords (p.w / 8) 16 block) st)

/-- The compression of `n` consecutive blocks. -/
def blocks (p : Sha2) : Nat → List Nat → List Nat → List Nat
  | 0, st, _ => st
  | n + 1, st, bs => blocks p n (compress p st (bs.take (2 * p.w))) (bs.drop (2 * p.w))

/-- The padded message: a `1` bit, zeros, and the bit length. -/
def pad (p : Sha2) (msg : List Nat) : List Nat :=
  let blk := 2 * p.w
  let lenBytes := p.w / 4
  let used := (msg.length + 1 + lenBytes) % blk
  let zeros := if used = 0 then 0 else blk - used
  msg ++ [128] ++ List.replicate zeros 0 ++ beBytes lenBytes (8 * msg.length)

/-- The digest of `msg`. -/
def Sha2.sum (p : Sha2) (msg : List Nat) : List Nat :=
  let padded := pad p msg
  ((blocks p (padded.length / (2 * p.w)) p.IV padded).flatMap (beBytes (p.w / 8))).take p.outBytes

/-- The largest `r` below `2 ^ bits` with `r ^ k ≤ n`, found bit by bit from the top. -/
def iroot (k n : Nat) : Nat → Nat → Nat
  | 0, r => r
  | bits + 1, r => if (r + 2 ^ bits) ^ k ≤ n then iroot k n bits (r + 2 ^ bits) else iroot k n bits r

/-- The first eighty primes. -/
def primes80 : List Nat :=
  [2, 3, 5, 7, 11, 13, 17, 19, 23, 29, 31, 37, 41, 43, 47, 53, 59, 61, 67, 71, 73, 79, 83, 89,
   97, 101, 103, 107, 109, 113, 127, 131, 137, 139, 149, 151, 157, 163, 167, 173, 179, 181,
   191, 193, 197, 199, 211, 223, 227, 229, 233, 239, 241, 251, 257, 263, 269, 271, 277, 281,
   283, 293, 307, 311, 313, 317, 331, 337, 347, 349, 353, 359, 367, 373, 379, 383, 389, 397,
   401, 409]

/-- The first `w` bits of the fractional part of the `k`-th root of `p`. -/
def rootFraction (k w p : Nat) : Nat := iroot k (p * 2 ^ (k * w)) (w + 10) 0 % 2 ^ w

/-- The round constants of SHA-512 and SHA-384 (FIPS 180-4, section 4.2.3), in decimal: the
first 64 bits of the fractional parts of the cube roots of the first eighty primes
(`K512_eq_cube_roots`). The high halves of the first 64 are the constants of SHA-256. -/
def K512 : List Nat := [
  4794697086780616226, 8158064640168781261, 13096744586834688815, 16840607885511220156,
  4131703408338449720, 6480981068601479193, 10538285296894168987, 12329834152419229976,
  15566598209576043074, 1334009975649890238, 2608012711638119052, 6128411473006802146,
  8268148722764581231, 9286055187155687089, 11230858885718282805, 13951009754708518548,
  16472876342353939154, 17275323862435702243, 1135362057144423861, 2597628984639134821,
  3308224258029322869, 5365058923640841347, 6679025012923562964, 8573033837759648693,
  10970295158949994411, 12119686244451234320, 12683024718118986047, 13788192230050041572,
  14330467153632333762, 15395433587784984357, 489312712824947311, 1452737877330783856,
  2861767655752347644, 3322285676063803686, 5560940570517711597, 5996557281743188959,
  7280758554555802590, 8532644243296465576, 9350256976987008742, 10552545826968843579,
  11727347734174303076, 12113106623233404929, 14000437183269869457, 14369950271660146224,
  15101387698204529176, 15463397548674623760, 17586052441742319658, 1182934255886127544,
  1847814050463011016, 2177327727835720531, 2830643537854262169, 3796741975233480872,
  4115178125766777443, 5681478168544905931, 6601373596472566643, 7507060721942968483,
  8399075790359081724, 8693463985226723168, 9568029438360202098, 10144078919501101548,
  10430055236837252648, 11840083180663258601, 13761210420658862357, 14299343276471374635,
  14566680578165727644, 15097957966210449927, 16922976911328602910, 17689382322260857208,
  500013540394364858, 748580250866718886, 1242879168328830382, 1977374033974150939,
  2944078676154940804, 3659926193048069267, 4368137639120453308, 4836135668995329356,
  5532061633213252278, 6448918945643986474, 6902733635092675308, 7801388544844847127]

/-- The hash SHA-256. -/
def sha256 : Sha2 where
  w := 32
  K := (K512.take 64).map (· / 2 ^ 32)
  IV := [0x6a09e667, 0xbb67ae85, 0x3c6ef372, 0xa54ff53a, 0x510e527f, 0x9b05688c, 0x1f83d9ab,
    0x5be0cd19]
  bigSigma0 := (2, 13, 22)
  bigSigma1 := (6, 11, 25)
  smallSigma0 := (7, 18, 3)
  smallSigma1 := (17, 19, 10)
  outBytes := 32

/-- The hash SHA-512. -/
def sha512 : Sha2 where
  w := 64
  K := K512
  IV := [0x6a09e667f3bcc908, 0xbb67ae8584caa73b, 0x3c6ef372fe94f82b, 0xa54ff53a5f1d36f1,
    0x510e527fade682d1, 0x9b05688c2b3e6c1f, 0x1f83d9abfb41bd6b, 0x5be0cd19137e2179]
  bigSigma0 := (28, 34, 39)
  bigSigma1 := (14, 18, 41)
  smallSigma0 := (1, 8, 7)
  smallSigma1 := (19, 61, 6)
  outBytes := 64

/-- The hash SHA-384: SHA-512 from another initial state, cut to 48 bytes. -/
def sha384 : Sha2 :=
  { sha512 with
    IV := [0xcbbb9d5dc1059ed8, 0x629a292a367cd507, 0x9159015a3070dd17, 0x152fecd8f70e5939,
      0x67332667ffc00b31, 0x8eb44a8768581511, 0xdb0c2e0d64f98fa7, 0x47b5481dbefa4fa4]
    outBytes := 48 }

/-- The keyed hash HMAC (RFC 2104) over a SHA-2 hash. -/
def hmac (p : Sha2) (key msg : List Nat) : List Nat :=
  let blk := 2 * p.w
  let k0 := if key.length > blk then p.sum key else key
  let k := k0 ++ List.replicate (blk - k0.length) 0
  p.sum (k.map (· ^^^ 0x5c) ++ p.sum (k.map (· ^^^ 0x36) ++ msg))

/-! ### `encoding/json` -/

/-- A parsed JSON value; a number keeps its literal text. -/
inductive JVal where
  | null
  | bool (b : Bool)
  | num (lit : List Char)
  | str (s : String)
  | arr (items : List JVal)
  | obj (members : List (String × JVal))

/-- JSON white space. -/
def isWs (c : Char) : Bool := c = ' ' || c = '\t' || c = '\n' || c = '\r'

/-- The input after its leading white space. -/
def skipWs : List Char → List Char
  | [] => []
  | c :: cs => if isWs c then skipWs cs else c :: cs

/-- A decimal digit. -/
def isDigit (c : Char) : Bool := 48 ≤ c.toNat && c.toNat ≤ 57

/-- The value of a hexadecimal digit. -/
def hexVal (c : Char) : Option Nat :=
  let n := c.toNat
  if 48 ≤ n ∧ n ≤ 57 then some (n - 48)
  else if 97 ≤ n ∧ n ≤ 102 then some (n - 87)
  else if 65 ≤ n ∧ n ≤ 70 then some (n - 55)
  else none

/-- The function `getu4`: the value of a leading `\uXXXX`, and the input after it. -/
def getu4 : List Char → Option (Nat × List Char)
  | '\\' :: 'u' :: h1 :: h2 :: h3 :: h4 :: rest =>
    match hexVal h1, hexVal h2, hexVal h3, hexVal h4 with
    | some a, some b, some c, some d => some (a * 4096 + b * 256 + c * 16 + d, rest)
    | _, _, _, _ => none
  | _ => none

/-- The body of a string literal after its opening quote: the decoded text and the input after
the closing quote. A `\u` escape of a surrogate that is not followed by its partner decodes to
U+FFFD. -/
def parseStrBody : Nat → List Char → List Char → Option (String × List Char)
  | 0, _, _ => none
  | fuel + 1, acc, inp =>
    match inp with
    | [] => none
    | c :: rest =>
      if c = '"' then some (String.mk acc.reverse, rest)
      else if c = '\\' then
        match rest with
        | [] => none
        | e :: rest1 =>
          if e = 'u' then
            match getu4 inp with
            | none => none
            | some (v, rest2) =>
              if 0xD800 ≤ v ∧ v < 0xE000 then
                match getu4 rest2 with
                | some (v2, rest3) =>
                  if v < 0xDC00 ∧ 0xDC00 ≤ v2 ∧ v2 < 0xE000 then
                    parseStrBody fuel
                      (Char.ofNat ((v - 0xD800) * 1024 + (v2 - 0xDC00) + 0x10000) :: acc) rest3
                  else parseStrBody fuel (Char.ofNat 0xFFFD :: acc) rest2
                | none => parseStrBody fuel (Char.ofNat 0xFFFD :: acc) rest2
              else parseStrBody fuel (Char.ofNat v :: acc) rest2
          else if e = '"' ∨ e = '\\' ∨ e = '/' then parseStrBody fuel (e :: acc) rest1
          else if e = 'b' then parseStrBody fuel (Char.ofNat 8 :: acc) rest1
          else if e = 'f' then parseStrBody fuel (Char.ofNat 12 :: acc) rest1
          else if e = 'n' then parseStrBody fuel ('\n' :: acc) rest1
          else if e = 'r' then parseStrBody fuel ('\r' :: acc) rest1
          else if e = 't' then parseStrBody fuel ('\t' :: acc) rest1
          else none
      else if c.toNat < 0x20 then none
      else parseStrBody fuel (c :: acc) rest

/-- The leading decimal digits of the input, and the input after them. -/
def takeDigits : List Char → List Char × List Char
  | [] => ([], [])
  | c :: cs =>
    if isDigit c then ((takeDigits cs).1.cons c, (takeDigits cs).2) else ([], c :: cs)

/-- The optional fraction `.digits` of a number; `none` when a `.` is followed by no digit. -/
def scanFrac (inp : List Char) : Option (List Char × List Char) :=
  match inp with
  | '.' :: r =>
    match takeDigits r with
    | ([], _) => none
    | (ds, r1) => some ('.' :: ds, r1)
  | _ => some ([], inp)

/-- The optional exponent `e[+-]digits` of a number; `none` when it has no digit. -/
def scanExp (inp : List Char) : Option (List Char × List Char) :=
  match inp with
  | [] => some ([], [])
  | c :: r =>
    if c = 'e' ∨ c = 'E' then
      match r with
      | [] => none
      | s :: r1 =>
        if s = '+' ∨ s = '-' then
          match takeDigits r1 with
          | ([], _) => none
          | (ds, r2) => some (c :: s :: ds, r2)
        else
          match takeDigits r with
          | ([], _) => none
          | (ds, r2) => some (c :: ds, r2)
    else some ([], inp)

/-- The unsigned part of a number literal: `0` or a digit string without leading zero, then
the optional fraction and exponent. -/
def scanUnsigned (inp : List Char) : Option (List Char × List Char) :=
  match inp with
  | [] => none
  | c :: r =>
    if isDigit c then
      let int := if c = '0' then ([c], r) else ((takeDigits r).1.cons c, (takeDigits r).2)
      match scanFrac int.2 with
      | none => none
      | some (fr, r1) =>
        match scanExp r1 with
        | none => none
        | some (ex, r2) => some (int.1 ++ fr ++ ex, r2)
    else none

/-- A number literal at the head of the input, and the input after it. -/
def scanNumber (inp : List Char) : Option (List Char × List Char) :=
  match inp with
  | '-' :: r =>
    match scanUnsigned r with
    | none => none
    | some (lit, r1) => some ('-' :: lit, r1)
  | _ => scanUnsigned inp

/-- The members of an object after a member's value: `,` and another member, or `}`.
`value` reads one value. -/
def parseMembers (value : List Char → Option (JVal × List Char)) :
    Nat → List (String × JVal) → List Char → Option (JVal × List Char)
  | 0, _, _ => none
  | fuel + 1, acc, inp =>
    match skipWs inp with
    | '"' :: r =>
      match parseStrBody r.length [] r with
      | none => none
      | some (key, r1) =>
        match skipWs r1 with
        | ':' :: r2 =>
          match value r2 with
          | none => none
          | some (v, r3) =>
            match skipWs r3 with
            | ',' :: r4 => parseMembers value fuel ((key, v) :: acc) r4
            | '}' :: r4 => some (.obj ((key, v) :: acc).reverse, r4)
            | _ => none
        | _ => none
    | _ => none

/-- The elements of an array after its opening bracket or a comma. -/
def parseItems (value : List Char → Option (JVal × List Char)) :
    Nat → List JVal → List Char → Option (JVal × List Char)
  | 0, _, _ => none
  | fuel + 1, acc, inp =>
    match value inp with
    | none => none
    | some (v, r) =>
      match skipWs r with
      | ',' :: r1 => parseItems value fuel (v :: acc) r1
      | ']' :: r1 => some (.arr (v :: acc).reverse, r1)
      | _ => none

/-- One JSON value at the head of the input (after white space), and the input after it;
`none` on a syntax error. The first argument is one more than the number of objects and arrays
that may still be opened inside one another: the scanner refuses to open one when there is
none left (`exceeded max depth`). -/
def parseValue : Nat → List Char → Option (JVal × List Char)
  | 0, _ => none
  | depth + 1, inp =>
    match skipWs inp with
    | [] => none
    | c :: r =>
      if c = '{' then
        if depth = 0 then none
        else
          match skipWs r with
          | '}' :: r1 => some (.obj [], r1)
          | _ => parseMembers (parseValue depth) r.length [] r
      else if c = '[' then
        if depth = 0 then none
        else
          match skipWs r with
          | ']' :: r1 => some (.arr [], r1)
          | _ => parseItems (parseValue depth) r.length [] r
      else if c = '"' then
        match parseStrBody r.length [] r with
        | none => none
        | some (s, r1) => some (.str s, r1)
      else if c = 't' then
        match r with
        | 'r' :: 'u' :: 'e' :: r1 => some (.bool true, r1)
        | _ => none
      else if c = 'f' then
        match r with
        | 'a' :: 'l' :: 's' :: 'e' :: r1 => some (.bool false, r1)
        | _ => none
      else if c = 'n' then
        match r with
        | 'u' :: 'l' :: 'l' :: r1 => some (.null, r1)
        | _ => none
      else
        match scanNumber (c :: r) with
        | none => none
        | some (lit, r1) => some (.num lit, r1)

/-- The constant `maxNestingDepth` of the scanner: the number of objects and arrays that may be
open at once. -/
def maxNestingDepth : Nat := 10000

/-- The first JSON value of a byte string, and the text after it. -/
def parseJSON (data : List Nat) : Option (JVal × List Char) :=
  parseValue (maxNestingDepth + 1) (fromBytes data)

/-- The decimal digits of a natural number, most significant first (`fuel` bounds their
number). -/
def digitsOf : Nat → Nat → List Char
  | 0, _ => []
  | fuel + 1, n =>
    if n < 10 then [Char.ofNat (48 + n)]
    else digitsOf fuel (n / 10) ++ [Char.ofNat (48 + n % 10)]

/-- The function `strconv.AppendInt(_, n, 10)`. -/
def formatInt (n : Int) : List Char :=
  if n < 0 then '-' :: digitsOf (n.natAbs + 1) n.natAbs else digitsOf (n.natAbs + 1) n.natAbs

/-- The value of a string of decimal digits; `none` when a character is not a digit or the
string is empty. -/
def digitsVal : List Char → Option Nat
  | [] => none
  | cs => cs.foldl (fun acc c =>
      match acc with
      | none => none
      | some v => if isDigit c then some (v * 10 + (c.toNat - 48)) else none) (some 0)

/-- The call `strconv.ParseInt(lit, 10, 64)` on a JSON number literal. -/
def parseInt64 (lit : List Char) : Option Int :=
  match lit with
  | '-' :: ds =>
    match digitsVal ds with
    | some v => if v ≤ 2 ^ 63 then some (-(v : Int)) else none
    | none => none
  | ds =>
    match digitsVal ds with
    | some v => if v < 2 ^ 63 then some (v : Int) else none
    | none => none

/-- The two lowercase hexadecimal digits of a byte. -/
def hex2 (n : Nat) : List Char :=
  [Nat.digitChar (n / 16), Nat.digitChar (n % 16)]

/-- The JSON text of one rune inside a string as `json.Marshal` writes it: quotes, backslashes,
control characters, `<`, `>`, `&`, U+2028 and U+2029 are escaped. -/
def escapeRune (c : Char) : List Char :=
  if c = '"' ∨ c = '\\' then ['\\', c]
  else if c = Char.ofNat 8 then ['\\', 'b']
  else if c = Char.ofNat 12 then ['\\', 'f']
  else if c = '\n' then ['\\', 'n']
  else if c = '\r' then ['\\', 'r']
  else if c = '\t' then ['\\', 't']
  else if c.toNat < 0x20 ∨ c = '<' ∨ c = '>' ∨ c = '&' then
    '\\' :: 'u' :: '0' :: '0' :: hex2 c.toNat
  else if c.toNat = 0x2028 then ['\\', 'u', '2', '0', '2', '8']
  else if c.toNat = 0x2029 then ['\\', 'u', '2', '0', '2', '9']
  else [c]

/-- The JSON text of a string as `json.Marshal` writes it. -/
def marshalString (s : String) : List Char :=
  '"' :: s.data.flatMap escapeRune ++ ['"']

/-- A string member with the tag `omitempty`. -/
def optString (name : String) (v : String) : List Char :=
  if v = "" then [] else ',' :: marshalString name ++ ':' :: marshalString v

/-- An integer member with the tag `omitempty`. -/
def optInt (name : String) (v : Int) : List Char :=
  if v = 0 then [] else ',' :: marshalString name ++ ':' :: formatInt v

/-- The call `json.Marshal(t)` for a `storage`: `username` first, then the members of the
embedded `StandardClaims` in declaration order, each left out when it is the zero value. -/
def marshalStorage (t : storage) : List Char :=
  "\x7b\"username\":".data ++ marshalString t.Username
    ++ optString "aud" t.StandardClaims.Audience
    ++ optInt "exp" t.StandardClaims.ExpiresAt
    ++ optString "jti" t.StandardClaims.Id
    ++ optInt "iat" t.StandardClaims.IssuedAt
    ++ optString "iss" t.StandardClaims.Issuer
    ++ optInt "nbf" t.StandardClaims.NotBefore
    ++ optString "sub" t.StandardClaims.Subject
    ++ ['}']

/-- The fold of a rune that the decoder applies before it compares an object key with a field
name: ASCII letters to upper case, the long s to `S`, the Kelvin sign to `K`. -/
def foldRune (c : Char) : Char :=
  if 97 ≤ c.toNat ∧ c.toNat ≤ 122 then Char.ofNat (c.toNat - 32)
  else if c.toNat = 0x17F then 'S'
  else if c.toNat = 0x212A then 'K'
  else c

/-- The field an object key names: the exact name, or else a name equal to it under
`foldRune`. -/
def findField (names : List String) (key : String) : Option String :=
  match names.find? (fun n => n = key) with
  | some n => some n
  | none => names.find? (fun n => n.data.map foldRune = key.data.map foldRune)

/-- The store of a JSON value into a `string` field; `none` is a type error. -/
def storeString (old : String) : JVal → Option String
  | .null => some old
  | .str s => some s
  | _ => none

/-- The store of a JSON value into an `int64` field; `none` is a type error. -/
def storeInt (old : Int) : JVal → Option Int
  | .null => some old
  | .num lit => parseInt64 lit
  | _ => none

/-- The JSON names of the fields of `storage`, the embedded `StandardClaims` included. -/
def storageFields : List String := ["username", "aud", "exp", "jti", "iat", "iss", "nbf", "sub"]

/-- The store of one object member into a `storage`; a key that names no field is skipped. -/
def storeMember (t : storage) (key : String) (v : JVal) : Option storage :=
  let sc := t.StandardClaims
  match findField storageFields key with
  | none => some t
  | some name =>
    if name = "username" then (storeString t.Username v).map fun s => { t with Username := s }
    else if name = "aud" then
      (storeString sc.Audience v).map fun s => { t with StandardClaims := { sc with Audience := s } }
    else if name = "exp" then
      (storeInt sc.ExpiresAt v).map fun n => { t with StandardClaims := { sc with ExpiresAt := n } }
    else if name = "jti" then
      (storeString sc.Id v).map fun s => { t with StandardClaims := { sc with Id := s } }
    else if name = "iat" then
      (storeInt sc.IssuedAt v).map fun n => { t with StandardClaims := { sc with IssuedAt := n } }
    else if name = "iss" then
      (storeString sc.Issuer v).map fun s => { t with StandardClaims := { sc with Issuer := s } }
    else if name = "nbf" then
      (storeInt sc.NotBefore v).map fun n => { t with StandardClaims := { sc with NotBefore := n } }
    else
      (storeString sc.Subject v).map fun s => { t with StandardClaims := { sc with Subject := s } }

/-- The members of an object stored into a `storage`, in order; `none` when a member has the
wrong type. -/
def storeMembers : List (String × JVal) → storage → Option storage
  | [], t => some t
  | (key, v) :: rest, t =>
    match storeMember t key v with
    | none => none
    | some t1 => storeMembers rest t1

/-- The zero value `storage{}`. -/
def zeroStorage : storage :=
  { Username := ""
    StandardClaims :=
      { Audience := "", ExpiresAt := 0, Id := "", IssuedAt := 0, Issuer := "", NotBefore := 0,
        Subject := "" } }

/-- The call `json.NewDecoder(claimBytes).Decode(&claims)` into a fresh `storage{}`: the first
JSON value of the input is decoded and what follows it is not read; `null` leaves the struct
as it is; a value that is no object, or a member of the wrong type, is an error. -/
def decodeStorage (data : List Nat) : Option storage :=
  match parseJSON data with
  | none => none
  | some (.null, _) => some zeroStorage
  | some (.obj members, _) => storeMembers members zeroStorage
  | some (_, _) => none

/-- The value of a string of decimal digits; `0` for the empty string. -/
def natOfDigits (ds : List Char) : Nat := ds.foldl (fun v c => v * 10 + (c.toNat - 48)) 0

/-- The range error of `strconv.ParseFloat(lit, 64)` on a JSON number literal: the value
rounds to an infinity, which it does from `(2 ^ 54 - 1) * 2 ^ 970` on, half way between the
largest `float64` and `2 ^ 1024`. The literal is `m * 10 ^ e10`, with `m` its digits and `e10`
its exponent less the number of digits of its fraction. -/
def floatRangeError (lit : List Char) : Bool :=
  let unsigned := if lit.head? = some '-' then lit.tail else lit
  let int := takeDigits unsigned
  let frac :=
    match int.2 with
    | '.' :: r => takeDigits r
    | _ => ([], int.2)
  let ex : Int :=
    match frac.2 with
    | _ :: '-' :: ds => -(natOfDigits ds : Int)
    | _ :: '+' :: ds => (natOfDigits ds : Int)
    | _ :: ds => (natOfDigits ds : Int)
    | [] => 0
  let m := natOfDigits (int.1 ++ frac.1)
  let e10 := ex - (frac.1.length : Int)
  let limit := (2 ^ 54 - 1) * 2 ^ 970
  if m = 0 then false
  else if 0 ≤ e10 then decide (310 < e10 ∨ limit ≤ m * 10 ^ e10.toNat)
  else decide ((-e10).toNat < (int.1 ++ frac.1).length ∧ limit * 10 ^ (-e10).toNat ≤ m)

mutual
/-- The number literals of a JSON value, those of nested values included. -/
def JVal.numbers : JVal → List (List Char)
  | .num lit => [lit]
  | .arr items => numbersOfItems items
  | .obj members => numbersOfMembers members
  | _ => []
/-- The number literals of the elements of an array. -/
def numbersOfItems : List JVal → List (List Char)
  | [] => []
  | v :: vs => v.numbers ++ numbersOfItems vs
/-- The number literals of the member values of an object. -/
def numbersOfMembers : List (String × JVal) → List (List Char)
  | [] => []
  | (_, v) :: ms => v.numbers ++ numbersOfMembers ms
end

/-- The call `json.Unmarshal(headerBytes, &token.Header)` followed by the lookup
`token.Header["alg"].(string)`: `none` when the input is not one JSON object or `null`, or when
a number in it, which the decoder stores as a `float64`, is out of range; else the string
under the last key `alg`, if there is one. -/
def decodeHeaderAlg (data : List Nat) : Option (Option String) :=
  match parseJSON data with
  | none => none
  | some (v, rest) =>
    if skipWs rest ≠ [] then none
    else
      match v with
      | .null => some none
      | .obj members =>
        if (numbersOfMembers members).any floatRangeError then none
        else
          match members.reverse.find? (fun m => m.1 = "alg") with
          | some (_, .str alg) => some (some alg)
          | _ => some none
      | _ => none

/-! ### `github.com/golang-jwt/jwt/v4` -/

/-- The function `strings.Split(s, sep)` for a one-byte separator, on the bytes of `s`: all
the pieces. -/
def splitAll (sep : Nat) : List Nat → List (List Nat)
  | [] => [[]]
  | c :: cs =>
    if c = sep then [] :: splitAll sep cs
    else
      match splitAll sep cs with
      | [] => [[c]]
      | p :: ps => (c :: p) :: ps

/-- The bit `ValidationErrorMalformed`. -/
def ValidationErrorMalformed : Nat := 1

/-- The bit `ValidationErrorUnverifiable`. -/
def ValidationErrorUnverifiable : Nat := 2

/-- The bit `ValidationErrorSignatureInvalid`. -/
def ValidationErrorSignatureInvalid : Nat := 4

/-- The bit `ValidationErrorExpired`. -/
def ValidationErrorExpired : Nat := 16

/-- The bit `ValidationErrorIssuedAt`. -/
def ValidationErrorIssuedAt : Nat := 32

/-- The bit `ValidationErrorNotValidYet`. -/
def ValidationErrorNotValidYet : Nat := 128

/-- The JSON text of the header `NewWithClaims(SigningMethodHS256, _)` builds,
`map[string]interface{}{"typ": "JWT", "alg": "HS256"}`: `json.Marshal` sorts the keys. -/
def headerJSON : List Char := "\x7b\"alg\":\"HS256\",\"typ\":\"JWT\"\x7d".data

/-- The method `Token.SigningString`, as bytes: the encoded header, a dot (46), the encoded
claims. -/
def SigningString (t : storage) : List Nat :=
  EncodeSegment (toBytes headerJSON) ++ 46 :: EncodeSegment (toBytes (marshalStorage t))

/-- The method `Token.SignedString` with `SigningMethodHS256` and a `[]byte` key: the signing
string, a dot, the encoded HMAC-SHA256 of the signing string; the string of these bytes, which
are ASCII. It returns no error. -/
def SignedString (t : storage) (key : List Nat) : String × Option JwtError :=
  (String.mk (fromBytes
    (SigningString t ++ 46 :: EncodeSegment (hmac sha256 key (SigningString t)))), none)

/-- The names `GetSigningMethod` knows besides the three HMAC methods. Their `Verify` returns
an error on a `[]byte` key. -/
def otherMethods : List String :=
  ["RS256", "RS384", "RS512", "PS256", "PS384", "PS512", "ES256", "ES384", "ES512", "EdDSA",
   "none"]

/-- The hash of an HMAC signing method. -/
def hmacMethod (alg : String) : Option Sha2 :=
  if alg = "HS256" then some sha256
  else if alg = "HS384" then some sha384
  else if alg = "HS512" then some sha512
  else none

/-- The call `token.Method.Verify(signingString, signature, key)` with a `[]byte` key; `true`
when it returns no error. An HMAC method decodes the signature segment and compares it with
the HMAC of the signing string. -/
def verifySignature (alg : String) (signingString signature : List Nat) (key : List Nat) :
    Bool :=
  match hmacMethod alg with
  | none => false
  | some h =>
    match DecodeSegment signature with
    | none => false
    | some sig => sig = hmac h key signingString

/-- The constant `unixToInternal` of package `time`: the seconds from year 1 to 1970. -/
def unixToInternal : Int := 62135596800

/-- The value an `int64` operation leaves: the result modulo `2 ^ 64`, between `-2 ^ 63` and
`2 ^ 63 - 1`. -/
def wrap64 (x : Int) : Int := (x + 2 ^ 63) % 2 ^ 64 - 2 ^ 63

/-- The seconds since year 1 that `time.Unix(sec, 0)` holds: the `int64` sum
`sec + unixToInternal`. The methods `Before`, `After` and `Equal` compare these. -/
def unixTime (sec : Int) : Int := wrap64 (sec + unixToInternal)

/-- The method `StandardClaims.Valid` when `time.Now().Unix()` is `now`: the error bits it
sets. A field that is `0` is not checked; `time.Unix(exp, 0)` must be after
`time.Unix(now, 0)`, and `time.Unix(iat, 0)` and `time.Unix(nbf, 0)` not after it. -/
def claimsErrors (c : StandardClaims) (now : Int) : Nat :=
  (if c.ExpiresAt ≠ 0 ∧ ¬ unixTime now < unixTime c.ExpiresAt then ValidationErrorExpired else 0)
  ||| (if c.IssuedAt ≠ 0 ∧ ¬ unixTime c.IssuedAt ≤ unixTime now then ValidationErrorIssuedAt
       else 0)
  ||| (if c.NotBefore ≠ 0 ∧ ¬ unixTime c.NotBefore ≤ unixTime now then ValidationErrorNotValidYet
       else 0)

/-- The function `jwt.ParseWithClaims(tokenString, &storage{}, keyFunc)` of the default parser,
with a `keyFunc` that returns `(key, nil)`, when `time.Now()` is `now`
(`Parser.ParseUnverified` followed by the validation of the claims and of the signature). The
token string is given by its bytes; 46 is the dot. -/
def ParseWithClaims (tokenString : List Nat) (key : List Nat) (now : Int) :
    Option Token × Option JwtError :=
  match splitAll 46 tokenString with
  | [p0, p1, p2] =>
    match (DecodeSegment p0).bind decodeHeaderAlg with
    | none => (some { Claims := .other, Valid := false }, some ⟨ValidationErrorMalformed⟩)
    | some alg? =>
      match (DecodeSegment p1).bind decodeStorage with
      | none =>
        (some { Claims := .storage zeroStorage, Valid := false }, some ⟨ValidationErrorMalformed⟩)
      | some claims =>
        match alg? with
        | none =>
          (some { Claims := .storage claims, Valid := false }, some ⟨ValidationErrorUnverifiable⟩)
        | some alg =>
          if (hmacMethod alg).isNone ∧ alg ∉ otherMethods then
            (some { Claims := .storage claims, Valid := false },
             some ⟨ValidationErrorUnverifiable⟩)
          else
            let errors := claimsErrors claims.StandardClaims (Unix now)
              ||| (if verifySignature alg (p0 ++ 46 :: p1) p2 key then 0
                   else ValidationErrorSignatureInvalid)
            if errors = 0 then (some { Claims := .storage claims, Valid := true }, none)
            else (some { Claims := .storage claims, Valid := false }, some ⟨errors⟩)
  | _ => (none, some ⟨ValidationErrorMalformed⟩)

/-- The imported packages as `jwt.go` uses them. -/
def jwtv4 : JwtLib where
  SignedString := SignedString
  ParseWithClaims := ParseWithClaims

/-! ## The todo handlers of `To_do.go` -/

/-- The struct `Todo` (To_do.go:14-18): the fields of the embedded `gorm.Model` (a zero
`time.Time` and a null `DeletedAt` are `none`), the title and the description. -/
structure Todo where
  ID : Nat
  CreatedAt : Option Int
  UpdatedAt : Option Int
  DeletedAt : Option Int
  Title : String
  Description : String
  deriving DecidableEq, Repr

/-- One call `c.JSON(status, _)` of a todo handler: an error object `gin.H{"error": msg}` or a
todo. -/
inductive Reply where
  | error (status : Nat) (msg : String)
  | todo (status : Nat) (t : Todo)
  deriving DecidableEq, Repr

/-- The rows of the table `todos`. -/
abbrev Table := List Todo

/-- The call `db.Create(&todo)`: a zero `ID` becomes the next free one, zero timestamps become
`now`, and the row is inserted unless its `ID` is taken. It returns the `todo` as the call
leaves it and the table. The handlers do not look at the error. -/
def Create (db : Table) (now : Int) (todo : Todo) : Todo × Table :=
  let row : Todo :=
    { todo with
      ID := if todo.ID = 0 then (db.map (·.ID)).foldl max 0 + 1 else todo.ID
      CreatedAt := some (todo.CreatedAt.getD now)
      UpdatedAt := some (todo.UpdatedAt.getD now) }
  if db.any (fun r => r.ID = row.ID) then (row, db) else (row, db ++ [row])

/-- The call `db.First(&todo, id)`: the row with this primary key that is not soft-deleted. -/
def First (db : Table) (id : Nat) : Option Todo :=
  db.find? (fun r => r.ID = id ∧ r.DeletedAt = none)

/-- The call `db.Save(&todo)` on a row that has a primary key: the row is written over the
stored one, with `UpdatedAt` set to `now`. -/
def Save (db : Table) (now : Int) (todo : Todo) : Todo × Table :=
  let row : Todo := { todo with UpdatedAt := some now }
  (row, db.map (fun r => if r.ID = row.ID then row else r))

/-- The handler of `POST /todos` (To_do.go:63-76) on a body that `c.ShouldBindJSON` decodes to
`decoded` (`none` when it is not JSON for a `Todo`): the calls of `c.JSON` in order, and the
table afterwards. There is no `return` after the reply 400 for an empty field. -/
def postTodos (db : Table) (now : Int) (decoded : Option Todo) : List Reply × Table :=
  match decoded with
  | none => ([.error 400 "Invalid JSON data"], db)
  | some todo =>
    let r1 : List Reply :=
      if todo.Title = "" ∨ todo.Description = "" then
        [.error 400 "Title and description cannot be empty"]
      else []
    let created := Create db now todo
    (r1 ++ [.todo 200 created.1], created.2)

/-- The handler of `PUT /todos/:id` (To_do.go:103-125), for a numeric `id`. There is no
`return` after the reply 400 for an empty field. -/
def putTodo (db : Table) (now : Int) (id : Nat) (decoded : Option Todo) : List Reply × Table :=
  match First db id with
  | none => ([.error 404 "Todo not found"], db)
  | some todo =>
    match decoded with
    | none => ([.error 400 "Invalid JSON data"], db)
    | some updatedTodo =>
      let r1 : List Reply :=
        if updatedTodo.Title = "" ∨ updatedTodo.Description = "" then
          [.error 400 "Title and description cannot be empty"]
        else []
      let saved := Save db now
        { todo with Title := updatedTodo.Title, Description := updatedTodo.Description }
      (r1 ++ [.todo 200 saved.1], saved.2)

/-! ## Notions used to state the properties -/

/-- What the gate does after `ParseToken` has returned (jwt.go:104-114). -/
def afterParse (r : Outcome (Option storage × Option JwtError)) : List Effect :=
  match r with
  | .panic => [.panic]
  | .ret (msg, err) =>
    if err ≠ none then
      [.JSON StatusOK [("code", .num 400), ("msg", .str "token invalid")], .Abort]
    else
      match msg with
      | none => [.panic]
      | some m => [.Set "username" m.Username, .Println m.Username, .Next]

/-- The assumption on the imported parser: it returns a nil error only together with a token
that is valid and holds the `*storage` it was given. -/
def NilErrorMeansValid (lib : JwtLib) : Prop :=
  ∀ s key now, (lib.ParseWithClaims s key now).2 = none →
    ∃ c, (lib.ParseWithClaims s key now).1 = some { Claims := .storage c, Valid := true }

/-- A list of byte values. -/
def IsBytes (bs : List Nat) : Prop := ∀ b ∈ bs, b < 256

/-- The claims `GenToken` builds: a username, an expiry, the issuer `ferriem`. -/
def issued (username : String) (exp : Int) : storage :=
  { Username := username
    StandardClaims :=
      { Audience := "", ExpiresAt := exp, Id := "", IssuedAt := 0, Issuer := "ferriem",
        NotBefore := 0, Subject := "" } }

/-- The members the parser finds in the claims `GenToken` marshals. -/
def issuedMembers (u : String) (e : Int) : List (String × JVal) :=
  if e = 0 then [("username", .str u), ("iss", .str "ferriem")]
  else [("username", .str u), ("exp", .num (formatInt e)), ("iss", .str "ferriem")]

/-- The bytes of a token whose three segments are the encodings of `header`, `payload` and
`sig`. -/
def tokenOf (header payload sig : List Nat) : List Nat :=
  EncodeSegment header ++ 46 :: (EncodeSegment payload ++ 46 :: EncodeSegment sig)

/-- The HMAC over the first two segments of a token. -/
def macOf (h : Sha2) (key header payload : List Nat) : List Nat :=
  hmac h key (EncodeSegment header ++ 46 :: EncodeSegment payload)

theorem K512_eq_cube_roots : K512 = primes80.map (rootFraction 3 64) := by decide!

theorem IV_eq_square_roots :
    sha256.IV = (primes80.take 8).map (rootFraction 2 32)
    ∧ sha512.IV = (primes80.take 8).map (rootFraction 2 64)
    ∧ sha384.IV = ((primes80.drop 8).take 8).map (rootFraction 2 64) := by decide!

/-! ## Splitting the header -/

theorem cut_eq_none {sep : Char} {s : List Char} : cut sep s = none ↔ sep ∉ s := by
  induction s with
  | nil => simp [cut]
  | cons c cs ih =>
    by_cases h : c = sep
    · simp [cut, h]
    · cases hc : cut sep cs with
      | none => simp [cut, h, hc, ih.mp hc, Ne.symm h]
      | some p =>
        have : sep ∈ cs := by
          by_contra hn
          rw [ih.mpr hn] at hc
          cases hc
        simp [cut, h, hc, this]

theorem cut_eq_some {sep : Char} {s a b : List Char} :
    cut sep s = some (a, b) ↔ s = a ++ sep :: b ∧ sep ∉ a := by
  induction s generalizing a b with
  | nil => simp [cut]
  | cons c cs ih =>
    by_cases h : c = sep
    · subst h
      simp only [cut, if_true, Option.some.injEq, Prod.mk.injEq]
      constructor
      · rintro ⟨rfl, rfl⟩
        simp
      · rintro ⟨h1, h2⟩
        cases a with
        | nil =>
          simp only [List.nil_append, List.cons.injEq, true_and] at h1
          simp [h1]
        | cons x xs =>
          simp only [List.cons_append, List.cons.injEq] at h1
          simp [h1.1] at h2
    · cases hc : cut sep cs with
      | none =>
        simp only [cut, h, if_false, hc, false_iff, not_and, reduceCtorEq]
        intro h1 h2
        have hmem : sep ∈ cs := by
          cases a with
          | nil => simp at h1; exact absurd h1.1 h
          | cons x xs =>
            simp only [List.cons_append, List.cons.injEq] at h1
            rw [h1.2]
            simp
        exact cut_eq_none.mp hc hmem
      | some p =>
        obtain ⟨a1, b1⟩ := p
        have := (ih (a := a1) (b := b1)).mp hc
        simp only [cut, h, if_false, hc, Option.some.injEq, Prod.mk.injEq]
        constructor
        · rintro ⟨rfl, rfl⟩
          refine ⟨by simp [this.1], ?_⟩
          simp [this.2, Ne.symm h]
        · rintro ⟨h1, h2⟩
          cases a with
          | nil => simp at h1; exact absurd h1.1 h
          | cons x xs =>
            simp only [List.cons_append, List.cons.injEq] at h1
            simp only [List.mem_cons, not_or] at h2
            have h3 := (ih (a := xs) (b := b)).mpr ⟨h1.2, h2.2⟩
            rw [hc] at h3
            simp only [Option.some.injEq, Prod.mk.injEq] at h3
            simp [h1.1, h3.1, h3.2]

/-- The pieces of `SplitN(s, " ", 2)`: the header itself when it has no space, else the text
before the first space and all the text after it. -/
theorem SplitN_two (s : String) :
    SplitN s 2 = match cut ' ' s.data with
      | none => [s]
      | some (a, b) => [String.mk a, String.mk b] := by
  simp only [SplitN, splitN]
  cases cut ' ' s.data with
  | none => simp
  | some p => simp

theorem cut_bearer (tok : String) :
    cut ' ' ("Bearer " ++ tok).data = some ("Bearer".data, tok.data) := by
  rw [cut_eq_some]
  constructor
  · simp [String.data_append]
  · decide

theorem bearer_of_cut {s : String} {b : List Char}
    (h : cut ' ' s.data = some ("Bearer".data, b)) : s = "Bearer " ++ String.mk b := by
  have := (cut_eq_some.mp h).1
  apply String.ext
  rw [this, String.data_append]
  rfl

/-! ## The gate, branch by branch -/

theorem gate_empty (lib : JwtLib) (now : Int) :
    JWTAuthMiddleware lib now "" =
      [.JSON StatusOK [("code", .num 400), ("msg", .str "authHeader empty")],
       .Println "authHeader empty", .Abort] := by
  simp [JWTAuthMiddleware]

theorem bearer_ne_empty (tok : String) : "Bearer " ++ tok ≠ "" := by
  intro h
  have := congrArg String.data h
  simp [String.data_append] at this

theorem SplitN_bearer (tok : String) : SplitN ("Bearer " ++ tok) 2 = ["Bearer", tok] := by
  rw [SplitN_two, cut_bearer]

theorem gate_bearer (lib : JwtLib) (now : Int) (tok : String) :
    JWTAuthMiddleware lib now ("Bearer " ++ tok) =
      .Println "Bearer" :: afterParse (ParseToken lib now (toBytes tok.data)) := by
  unfold JWTAuthMiddleware
  rw [if_neg (bearer_ne_empty tok)]
  simp only [SplitN_bearer]
  simp only [List.getElem?_cons_zero, List.length_cons, List.length_nil, Nat.reduceAdd,
    and_self, not_true_eq_false, if_false, List.getElem?_cons_succ, afterParse]

theorem gate_not_bearer (lib : JwtLib) (now : Int) (authHeader : String)
    (h1 : authHeader ≠ "") (h2 : ∀ tok, authHeader ≠ "Bearer " ++ tok) :
    JWTAuthMiddleware lib now authHeader =
      [.Println ((SplitN authHeader 2).headD ""),
       .JSON StatusOK [("code", .num 404), ("msg", .str "authHeader format error")],
       .Abort] := by
  unfold JWTAuthMiddleware
  rw [if_neg h1]
  simp only [SplitN_two]
  cases hc : cut ' ' authHeader.data with
  | none => simp
  | some p =>
    obtain ⟨a, b⟩ := p
    have hne : String.mk a ≠ "Bearer" := by
      intro h
      have ha : a = "Bearer".data := congrArg String.data h
      rw [ha] at hc
      exact h2 _ (bearer_of_cut hc)
    simp [hne]

theorem ParseToken_cases (lib : JwtLib) (h : NilErrorMeansValid lib) (now : Int)
    (tok : List Nat) :
    (∃ c, ParseToken lib now tok = .ret (some c, none)) ∨
    (∃ e, ParseToken lib now tok = .ret (none, some e)) := by
  unfold ParseToken
  have := h tok Secret now
  rcases hp : lib.ParseWithClaims tok Secret now with ⟨token, err⟩
  rw [hp] at this
  cases err with
  | some e => right; exact ⟨e, by simp⟩
  | none =>
    obtain ⟨c, hc⟩ := this rfl
    simp only at hc
    subst hc
    left
    exact ⟨c, by simp⟩

theorem jwtv4_nilError : NilErrorMeansValid jwtv4 := by
  intro s key now
  simp only [jwtv4, ParseWithClaims]
  repeat' split
  all_goals simp

/-! ## Characters and bytes -/

theorem toNat_ofNat_of_lt {n : Nat} (h : n < 0xD800) : (Char.ofNat n).toNat = n := by
  have hv : n.isValidChar := Or.inl h
  simp only [Char.ofNat, hv, dite_true]
  rfl

theorem char_eq_of_toNat {c d : Char} (h : c.toNat = d.toNat) : c = d := by
  rw [← Char.ofNat_toNat c, ← Char.ofNat_toNat d, h]

theorem toNat_valid (c : Char) : c.toNat < 0xD800 ∨ (0xDFFF < c.toNat ∧ c.toNat < 0x110000) :=
  c.valid

/-! ## `strings.Split` -/

theorem splitAll_of_not_mem {sep : Nat} {a : List Nat} (h : sep ∉ a) :
    splitAll sep a = [a] := by
  induction a with
  | nil => rfl
  | cons c cs ih =>
    simp only [List.mem_cons, not_or] at h
    simp [splitAll, Ne.symm h.1, ih h.2]

theorem splitAll_append {sep : Nat} {a : List Nat} (b : List Nat) (h : sep ∉ a) :
    splitAll sep (a ++ sep :: b) = a :: splitAll sep b := by
  induction a with
  | nil => simp [splitAll]
  | cons c cs ih =>
    simp only [List.mem_cons, not_or] at h
    simp [splitAll, Ne.symm h.1, ih h.2]

/-! ## Base64 -/

theorem decodeVal_encodeStd {n : Nat} (h : n < 64) : decodeVal (encodeStd n) = some n := by
  interval_cases n <;> rfl

theorem encodeStd_ne (n : Nat) :
    encodeStd n ≠ 46 ∧ encodeStd n ≠ 13 ∧ encodeStd n ≠ 10 ∧ encodeStd n < 128 := by
  unfold encodeStd
  split_ifs <;> omega

theorem IsBytes.cons {b : Nat} {bs : List Nat} (h : IsBytes (b :: bs)) :
    b < 256 ∧ IsBytes bs :=
  ⟨h b (List.mem_cons_self _ _), fun x hx => h x (List.mem_cons_of_mem _ hx)⟩

theorem IsBytes.append {as bs : List Nat} (ha : IsBytes as) (hb : IsBytes bs) :
    IsBytes (as ++ bs) := by
  intro b hb'
  rcases List.mem_append.mp hb' with h | h
  · exact ha b h
  · exact hb b h

/-- An encoded segment holds no dot, no `\r`, no `\n`, and ASCII only. -/
theorem encodeQuanta_chars : ∀ (bs : List Nat),
    ∀ c ∈ encodeQuanta bs, c ≠ 46 ∧ c ≠ 13 ∧ c ≠ 10 ∧ c < 128
  | a :: b :: c :: rest => by
    intro x hx
    simp only [encodeQuanta, List.mem_cons] at hx
    rcases hx with rfl | rfl | rfl | rfl | hx
    · exact encodeStd_ne _
    · exact encodeStd_ne _
    · exact encodeStd_ne _
    · exact encodeStd_ne _
    · exact encodeQuanta_chars rest x hx
  | [a, b] => by
    intro x hx
    simp only [encodeQuanta, List.mem_cons, List.mem_singleton, List.not_mem_nil, or_false] at hx
    rcases hx with rfl | rfl | rfl
    · exact encodeStd_ne _
    · exact encodeStd_ne _
    · exact encodeStd_ne _
  | [a] => by
    intro x hx
    simp only [encodeQuanta, List.mem_cons, List.mem_singleton, List.not_mem_nil, or_false] at hx
    rcases hx with rfl | rfl
    · exact encodeStd_ne _
    · exact encodeStd_ne _
  | [] => by simp [encodeQuanta]

theorem decodeQuanta_encodeQuanta : ∀ (bs : List Nat), IsBytes bs →
    decodeQuanta (encodeQuanta bs) = some bs
  | a :: b :: c :: rest, h => by
    obtain ⟨ha, h1⟩ := h.cons
    obtain ⟨hb, h2⟩ := h1.cons
    obtain ⟨hc, h3⟩ := h2.cons
    have ih := decodeQuanta_encodeQuanta rest h3
    simp only [encodeQuanta, decodeQuanta]
    rw [decodeVal_encodeStd (by omega), decodeVal_encodeStd (by omega),
      decodeVal_encodeStd (by omega), decodeVal_encodeStd (by omega), ih]
    simp only [Option.some.injEq, List.cons.injEq, and_true]
    refine ⟨by omega, by omega, by omega⟩
  | [a, b], h => by
    obtain ⟨ha, h1⟩ := h.cons
    obtain ⟨hb, _⟩ := h1.cons
    simp only [encodeQuanta, decodeQuanta]
    rw [decodeVal_encodeStd (by omega), decodeVal_encodeStd (by omega),
      decodeVal_encodeStd (by omega)]
    simp only [Option.some.injEq, List.cons.injEq, and_true]
    refine ⟨by omega, by omega⟩
  | [a], h => by
    obtain ⟨ha, _⟩ := h.cons
    simp only [encodeQuanta, decodeQuanta]
    rw [decodeVal_encodeStd (by omega), decodeVal_encodeStd (by omega)]
    simp only [Option.some.injEq, List.cons.injEq, and_true]
    omega
  | [], _ => by simp [encodeQuanta, decodeQuanta]

theorem filter_encodeQuanta (bs : List Nat) :
    (encodeQuanta bs).filter (fun c => c ≠ 13 ∧ c ≠ 10) = encodeQuanta bs := by
  rw [List.filter_eq_self]
  intro c hc
  have := encodeQuanta_chars bs c hc
  simp [this.2.1, this.2.2.1]

theorem DecodeSegment_EncodeSegment {bs : List Nat} (h : IsBytes bs) :
    DecodeSegment (EncodeSegment bs) = some bs := by
  unfold DecodeSegment EncodeSegment
  rw [filter_encodeQuanta]
  exact decodeQuanta_encodeQuanta bs h

theorem EncodeSegment_no_dot (bs : List Nat) : 46 ∉ EncodeSegment bs := by
  intro hc
  exact (encodeQuanta_chars bs 46 hc).1 rfl

/-! ## UTF-8 -/

theorem utf8_isBytes (c : Char) : IsBytes (utf8 c) := by
  have hv := toNat_valid c
  intro b hb
  unfold utf8 at hb
  simp only at hb
  split_ifs at hb <;> simp only [List.mem_cons, List.mem_singleton, List.not_mem_nil,
    or_false] at hb <;> omega

theorem toBytes_isBytes (s : List Char) : IsBytes (toBytes s) := by
  intro b hb
  simp only [toBytes, List.mem_flatMap] at hb
  obtain ⟨c, _, hc⟩ := hb
  exact utf8_isBytes c b hc

theorem utf8_length_pos (c : Char) : 0 < (utf8 c).length := by
  unfold utf8
  simp only
  split_ifs <;> simp

theorem decodeRune_utf8 (c : Char) (rest : List Nat) :
    decodeRune (utf8 c ++ rest) = (c, (utf8 c).length) := by
  have hv := toNat_valid c
  unfold utf8
  simp only
  split_ifs with h1 h2 h3
  · simp [decodeRune, h1]
  · have e : (0xC0 + c.toNat / 64 - 0xC0) * 64 + (0x80 + c.toNat % 64 - 0x80) = c.toNat := by
      omega
    have c1 : ¬ (0xC0 + c.toNat / 64 < 0x80) := by omega
    have c2 : 0xC2 ≤ 0xC0 + c.toNat / 64 ∧ 0xC0 + c.toNat / 64 < 0xE0 := by omega
    have c3 : isCont (0x80 + c.toNat % 64) = true := by
      simp only [isCont, Bool.and_eq_true, decide_eq_true_eq]
      omega
    simp only [List.cons_append, List.nil_append, decodeRune, c1, if_false, c2, and_self,
      if_true, c3, e, Char.ofNat_toNat, List.length_cons, List.length_nil]
  · have e : (0xE0 + c.toNat / 4096 - 0xE0) * 4096 + (0x80 + c.toNat / 64 % 64 - 0x80) * 64
        + (0x80 + c.toNat % 64 - 0x80) = c.toNat := by omega
    have c1 : ¬ (0xE0 + c.toNat / 4096 < 0x80) := by omega
    have c2 : ¬ (0xC2 ≤ 0xE0 + c.toNat / 4096 ∧ 0xE0 + c.toNat / 4096 < 0xE0) := by omega
    have c3 : 0xE0 ≤ 0xE0 + c.toNat / 4096 ∧ 0xE0 + c.toNat / 4096 < 0xF0 := by omega
    have c4 : isCont (0x80 + c.toNat / 64 % 64) = true ∧ isCont (0x80 + c.toNat % 64) = true
        ∧ (0xE0 + c.toNat / 4096 = 0xE0 → 0xA0 ≤ 0x80 + c.toNat / 64 % 64)
        ∧ (0xE0 + c.toNat / 4096 = 0xED → 0x80 + c.toNat / 64 % 64 < 0xA0) := by
      simp only [isCont, Bool.and_eq_true, decide_eq_true_eq]
      omega
    simp only [List.cons_append, List.nil_append, decodeRune, c1, if_false, c2, c3, and_self,
      if_true]
    rw [if_pos c4]
    simp only [e, Char.ofNat_toNat, List.length_cons, List.length_nil]
  · have e : (0xF0 + c.toNat / 262144 - 0xF0) * 262144
        + (0x80 + c.toNat / 4096 % 64 - 0x80) * 4096
        + (0x80 + c.toNat / 64 % 64 - 0x80) * 64 + (0x80 + c.toNat % 64 - 0x80) = c.toNat := by
      omega
    have c1 : ¬ (0xF0 + c.toNat / 262144 < 0x80) := by omega
    have c2 : ¬ (0xC2 ≤ 0xF0 + c.toNat / 262144 ∧ 0xF0 + c.toNat / 262144 < 0xE0) := by omega
    have c3 : ¬ (0xE0 ≤ 0xF0 + c.toNat / 262144 ∧ 0xF0 + c.toNat / 262144 < 0xF0) := by omega
    have c4 : 0xF0 ≤ 0xF0 + c.toNat / 262144 ∧ 0xF0 + c.toNat / 262144 < 0xF5
        ∧ isCont (0x80 + c.toNat / 4096 % 64) = true ∧ isCont (0x80 + c.toNat / 64 % 64) = true
        ∧ isCont (0x80 + c.toNat % 64) = true
        ∧ (0xF0 + c.toNat / 262144 = 0xF0 → 0x90 ≤ 0x80 + c.toNat / 4096 % 64)
        ∧ (0xF0 + c.toNat / 262144 = 0xF4 → 0x80 + c.toNat / 4096 % 64 < 0x90) := by
      simp only [isCont, Bool.and_eq_true, decide_eq_true_eq]
      omega
    simp only [List.cons_append, List.nil_append, decodeRune, c1, if_false, c2, c3]
    rw [if_pos c4]
    simp only [e, Char.ofNat_toNat, List.length_cons, List.length_nil]

theorem runes_toBytes (s : List Char) (rest : List Nat) (fuel : Nat) (h : s.length ≤ fuel) :
    runes fuel (toBytes s ++ rest) = s ++ runes (fuel - s.length) rest := by
  induction s generalizing fuel with
  | nil => simp [toBytes]
  | cons c cs ih =>
    obtain ⟨f, rfl⟩ : ∃ f, fuel = f + 1 := ⟨fuel - 1, by simp at h; omega⟩
    have hl : cs.length ≤ f := by simpa using h
    have hpos := utf8_length_pos c
    have hb : toBytes (c :: cs) ++ rest = utf8 c ++ (toBytes cs ++ rest) := by
      simp [toBytes]
    rw [hb]
    cases hu : utf8 c with
    | nil => simp [hu] at hpos
    | cons b0 bt =>
      simp only [List.cons_append, runes]
      have hd := decodeRune_utf8 c (toBytes cs ++ rest)
      rw [hu] at hd
      simp only [List.cons_append] at hd
      rw [hd]
      simp only [List.length_cons, List.drop_succ_cons, List.cons.injEq, true_and]
      rw [List.drop_left' rfl, ih f hl]
      simp

theorem fromBytes_toBytes (s : List Char) : fromBytes (toBytes s) = s := by
  unfold fromBytes
  have hlen : s.length ≤ (toBytes s).length := by
    induction s with
    | nil => simp
    | cons c cs ih =>
      have := utf8_length_pos c
      simp only [toBytes, List.flatMap_cons, List.length_append, List.length_cons] at ih ⊢
      omega
  have := runes_toBytes s [] (toBytes s).length hlen
  simp only [List.append_nil] at this
  rw [this]
  cases (toBytes s).length - s.length <;> simp [runes]

/-! ## SHA-2 output -/

theorem beBytes_isBytes (n x : Nat) : IsBytes (beBytes n x) := by
  induction n generalizing x with
  | zero => simp [beBytes, IsBytes]
  | succ n ih =>
    intro b hb
    simp only [beBytes, List.mem_append, List.mem_singleton] at hb
    rcases hb with hb | rfl
    · exact ih _ b hb
    · omega

theorem sum_isBytes (p : Sha2) (msg : List Nat) : IsBytes (p.sum msg) := by
  intro b hb
  unfold Sha2.sum at hb
  have := List.mem_of_mem_take hb
  simp only [List.mem_flatMap] at this
  obtain ⟨x, _, hx⟩ := this
  exact beBytes_isBytes _ _ b hx

theorem hmac_isBytes (p : Sha2) (key msg : List Nat) : IsBytes (hmac p key msg) := by
  unfold hmac
  exact sum_isBytes _ _

/-! ## ASCII strings -/

theorem utf8_ofNat {b : Nat} (h : b < 128) : utf8 (Char.ofNat b) = [b] := by
  have : (Char.ofNat b).toNat = b := toNat_ofNat_of_lt (by omega)
  simp [utf8, this, h]

theorem toBytes_map_ofNat {bs : List Nat} (h : ∀ b ∈ bs, b < 128) :
    toBytes (bs.map Char.ofNat) = bs := by
  induction bs with
  | nil => rfl
  | cons b rest ih =>
    have hb := h b (List.mem_cons_self _ _)
    have hr := ih (fun x hx => h x (List.mem_cons_of_mem _ hx))
    simp only [toBytes, List.map_cons, List.flatMap_cons, utf8_ofNat hb] at hr ⊢
    rw [hr]
    rfl

theorem runes_ascii {bs : List Nat} (h : ∀ b ∈ bs, b < 128) (fuel : Nat)
    (hf : bs.length ≤ fuel) : runes fuel bs = bs.map Char.ofNat := by
  induction bs generalizing fuel with
  | nil => cases fuel <;> rfl
  | cons b rest ih =>
    obtain ⟨f, rfl⟩ : ∃ f, fuel = f + 1 := ⟨fuel - 1, by simp at hf; omega⟩
    have hb := h b (List.mem_cons_self _ _)
    have hd : decodeRune (b :: rest) = (Char.ofNat b, 1) := by
      simp [decodeRune, hb]
    simp only [runes, hd, List.drop_succ_cons, List.drop_zero, List.map_cons, List.cons.injEq,
      true_and]
    exact ih (fun x hx => h x (List.mem_cons_of_mem _ hx)) f (by simpa using hf)

/-- The bytes of the string made of ASCII bytes are those bytes. -/
theorem toBytes_fromBytes {bs : List Nat} (h : ∀ b ∈ bs, b < 128) :
    toBytes (fromBytes bs) = bs := by
  unfold fromBytes
  rw [runes_ascii h _ (le_refl _), toBytes_map_ofNat h]

/-! ## The length of a digest -/

theorem hexVal_digitChar {k : Nat} (h : k < 16) : hexVal (Nat.digitChar k) = some k := by
  interval_cases k <;> rfl

theorem getu4_hex2 (n : Nat) (h : n < 256) (tail : List Char) :
    getu4 ('\\' :: 'u' :: '0' :: '0' :: hex2 n ++ tail) = some (n, tail) := by
  have h0 : hexVal '0' = some 0 := rfl
  simp only [hex2, List.cons_append, List.nil_append, getu4, h0,
    hexVal_digitChar (show n / 16 < 16 by omega), hexVal_digitChar (show n % 16 < 16 by omega)]
  simp only [Option.some.injEq, Prod.mk.injEq, and_true]
  omega

/-- The cases of `escapeRune`. -/
theorem escapeRune_cases (c : Char) :
    (escapeRune c = ['\\', c] ∧ (c = '"' ∨ c = '\\'))
    ∨ (escapeRune c = ['\\', 'b'] ∧ c = Char.ofNat 8)
    ∨ (escapeRune c = ['\\', 'f'] ∧ c = Char.ofNat 12)
    ∨ (escapeRune c = ['\\', 'n'] ∧ c = '\n')
    ∨ (escapeRune c = ['\\', 'r'] ∧ c = '\r')
    ∨ (escapeRune c = ['\\', 't'] ∧ c = '\t')
    ∨ (escapeRune c = '\\' :: 'u' :: '0' :: '0' :: hex2 c.toNat ∧ c.toNat < 256)
    ∨ (escapeRune c = ['\\', 'u', '2', '0', '2', '8'] ∧ c = Char.ofNat 0x2028)
    ∨ (escapeRune c = ['\\', 'u', '2', '0', '2', '9'] ∧ c = Char.ofNat 0x2029)
    ∨ (escapeRune c = [c] ∧ c ≠ '"' ∧ c ≠ '\\' ∧ ¬ c.toNat < 0x20) := by
  unfold escapeRune
  by_cases h1 : c = '"' ∨ c = '\\'
  · rw [if_pos h1]
    exact Or.inl ⟨rfl, h1⟩
  rw [if_neg h1]
  by_cases h2 : c = Char.ofNat 8
  · rw [if_pos h2]
    exact Or.inr (Or.inl ⟨rfl, h2⟩)
  rw [if_neg h2]
  by_cases h3 : c = Char.ofNat 12
  · rw [if_pos h3]
    exact Or.inr (Or.inr (Or.inl ⟨rfl, h3⟩))
  rw [if_neg h3]
  by_cases h4 : c = '\n'
  · rw [if_pos h4]
    exact Or.inr (Or.inr (Or.inr (Or.inl ⟨rfl, h4⟩)))
  rw [if_neg h4]
  by_cases h5 : c = '\r'
  · rw [if_pos h5]
    exact Or.inr (Or.inr (Or.inr (Or.inr (Or.inl ⟨rfl, h5⟩))))
  rw [if_neg h5]
  by_cases h6 : c = '\t'
  · rw [if_pos h6]
    exact Or.inr (Or.inr (Or.inr (Or.inr (Or.inr (Or.inl ⟨rfl, h6⟩)))))
  rw [if_neg h6]
  by_cases h7 : c.toNat < 0x20 ∨ c = '<' ∨ c = '>' ∨ c = '&'
  · rw [if_pos h7]
    refine Or.inr (Or.inr (Or.inr (Or.inr (Or.inr (Or.inr (Or.inl ⟨rfl, ?_⟩))))))
    rcases h7 with h | rfl | rfl | rfl
    · omega
    · decide
    · decide
    · decide
  rw [if_neg h7]
  by_cases h8 : c.toNat = 0x2028
  · rw [if_pos h8]
    refine Or.inr (Or.inr (Or.inr (Or.inr (Or.inr (Or.inr (Or.inr (Or.inl ⟨rfl, ?_⟩)))))))
    rw [← h8, Char.ofNat_toNat]
  rw [if_neg h8]
  by_cases h9 : c.toNat = 0x2029
  · rw [if_pos h9]
    refine Or.inr (Or.inr (Or.inr (Or.inr (Or.inr (Or.inr (Or.inr (Or.inr (Or.inl ⟨rfl, ?_⟩))))))))
    rw [← h9, Char.ofNat_toNat]
  rw [if_neg h9]
  exact Or.inr (Or.inr (Or.inr (Or.inr (Or.inr (Or.inr (Or.inr (Or.inr (Or.inr
    ⟨rfl, fun h => h1 (Or.inl h), fun h => h1 (Or.inr h), fun h => h7 (Or.inl h)⟩))))))))

theorem parseStrBody_escapeRune (c : Char) (fuel : Nat) (acc tail : List Char) :
    parseStrBody (fuel + 1) acc (escapeRune c ++ tail) = parseStrBody fuel (c :: acc) tail := by
  rcases escapeRune_cases c with ⟨e, h⟩ | ⟨e, h⟩ | ⟨e, h⟩ | ⟨e, h⟩ | ⟨e, h⟩ | ⟨e, h⟩ | ⟨e, h⟩ |
    ⟨e, h⟩ | ⟨e, h⟩ | ⟨e, a1, a2, a3⟩
  · rw [e]
    rcases h with rfl | rfl <;> rfl
  · rw [e, h]
    rfl
  · rw [e, h]
    rfl
  · rw [e, h]
    rfl
  · rw [e, h]
    rfl
  · rw [e, h]
    rfl
  · have hs : ¬ (0xD800 ≤ c.toNat ∧ c.toNat < 0xE000) := by omega
    have hg := getu4_hex2 c.toNat h tail
    rw [e]
    simp only [List.cons_append] at hg ⊢
    rw [parseStrBody]
    simp only [show ('\\' : Char) ≠ '"' by decide, if_false, if_true,
      show ('u' : Char) = 'u' from rfl, hg, hs, Char.ofNat_toNat]
  · rw [e, h]
    rfl
  · rw [e, h]
    rfl
  · rw [e]
    simp [parseStrBody, a1, a2, a3]

theorem parseStrBody_escaped (s : List Char) (fuel : Nat) (acc tail : List Char)
    (h : s.length < fuel) :
    parseStrBody fuel acc (s.flatMap escapeRune ++ '"' :: tail) =
      some (String.mk (acc.reverse ++ s), tail) := by
  induction s generalizing fuel acc with
  | nil =>
    obtain ⟨f, rfl⟩ : ∃ f, fuel = f + 1 := ⟨fuel - 1, by simp at h; omega⟩
    simp [parseStrBody]
  | cons c cs ih =>
    obtain ⟨f, rfl⟩ : ∃ f, fuel = f + 1 := ⟨fuel - 1, by simp at h; omega⟩
    have hl : cs.length < f := by simpa using h
    simp only [List.flatMap_cons, List.append_assoc]
    rw [parseStrBody_escapeRune, ih f (c :: acc) hl]
    simp

theorem escapeRune_length_pos (c : Char) : 0 < (escapeRune c).length := by
  rcases escapeRune_cases c with ⟨e, _⟩ | ⟨e, _⟩ | ⟨e, _⟩ | ⟨e, _⟩ | ⟨e, _⟩ | ⟨e, _⟩ | ⟨e, _⟩ |
    ⟨e, _⟩ | ⟨e, _⟩ | ⟨e, _⟩ <;> rw [e] <;> simp

theorem length_le_flatMap_escapeRune (s : List Char) :
    s.length ≤ (s.flatMap escapeRune).length := by
  induction s with
  | nil => simp
  | cons c cs ih =>
    have := escapeRune_length_pos c
    simp only [List.flatMap_cons, List.length_append, List.length_cons]
    omega

theorem parseValue_quote (fuel : Nat) (r : List Char) :
    parseValue (fuel + 1) ('"' :: r) =
      match parseStrBody r.length [] r with
      | none => none
      | some (s, r1) => some (.str s, r1) := by
  rw [parseValue]
  simp [skipWs, isWs]

/-- The value parser reads back a marshalled string. -/
theorem parseValue_marshalString (s : String) (fuel : Nat) (tail : List Char) :
    parseValue (fuel + 1) (marshalString s ++ tail) = some (.str s, tail) := by
  have hl := length_le_flatMap_escapeRune s.data
  have hb := parseStrBody_escaped s.data
    (s.data.flatMap escapeRune ++ '"' :: tail).length [] tail
    (by simp only [List.length_append, List.length_cons]; omega)
  have e : marshalString s ++ tail = '"' :: (s.data.flatMap escapeRune ++ '"' :: tail) := by
    simp [marshalString]
  rw [e, parseValue_quote, hb]
  simp

/-! ## JSON numbers -/

theorem digit_toNat {d : Nat} (h : d < 10) : (Char.ofNat (48 + d)).toNat = 48 + d :=
  toNat_ofNat_of_lt (by omega)

theorem isDigit_digit {d : Nat} (h : d < 10) : isDigit (Char.ofNat (48 + d)) = true := by
  simp only [isDigit, digit_toNat h, Bool.and_eq_true, decide_eq_true_eq]
  omega

/-- The facts about `digitsOf` that the parser needs: the digits are digits, their value is
`n`, there is at least one, and the first is `0` only for `n = 0`. -/
theorem digitsOf_spec (fuel n : Nat) (h : n < fuel) :
    (∀ c ∈ digitsOf fuel n, isDigit c = true)
    ∧ (∀ v, (digitsOf fuel n).foldl (fun acc c =>
        match acc with
        | none => none
        | some v => if isDigit c then some (v * 10 + (c.toNat - 48)) else none) (some v)
        = some (v * 10 ^ (digitsOf fuel n).length + n))
    ∧ (∃ d rest, digitsOf fuel n = d :: rest ∧ (d = '0' → n = 0)) := by
  induction fuel generalizing n with
  | zero => omega
  | succ f ih =>
    by_cases hn : n < 10
    · have e : digitsOf (f + 1) n = [Char.ofNat (48 + n)] := by simp [digitsOf, hn]
      rw [e]
      refine ⟨?_, ?_, ?_⟩
      · intro c hc
        simp only [List.mem_singleton] at hc
        subst hc
        exact isDigit_digit hn
      · intro v
        simp only [List.foldl_cons, List.foldl_nil, isDigit_digit hn, if_true, digit_toNat hn,
          List.length_singleton, pow_one, Option.some.injEq]
        omega
      · refine ⟨_, [], rfl, ?_⟩
        intro h0
        have := congrArg Char.toNat h0
        rw [digit_toNat hn] at this
        have h48 : ('0' : Char).toNat = 48 := rfl
        omega
    · have e : digitsOf (f + 1) n = digitsOf f (n / 10) ++ [Char.ofNat (48 + n % 10)] := by
        simp [digitsOf, hn]
      have hm : n % 10 < 10 := Nat.mod_lt _ (by omega)
      obtain ⟨i1, i2, d, rest, i3, i4⟩ := ih (n / 10) (by omega)
      rw [e]
      refine ⟨?_, ?_, ?_⟩
      · intro c hc
        rcases List.mem_append.mp hc with hc | hc
        · exact i1 c hc
        · simp only [List.mem_singleton] at hc
          subst hc
          exact isDigit_digit hm
      · intro v
        rw [List.foldl_append, i2 v]
        simp only [List.foldl_cons, List.foldl_nil, isDigit_digit hm, if_true, digit_toNat hm,
          List.length_append, List.length_singleton, Option.some.injEq, pow_succ]
        have := Nat.div_add_mod n 10
        have e2 : 48 + n % 10 - 48 = n % 10 := by omega
        rw [e2]
        nlinarith [Nat.div_add_mod n 10]
      · refine ⟨d, rest ++ [Char.ofNat (48 + n % 10)], by rw [i3]; rfl, ?_⟩
        intro h0
        have := i4 h0
        omega

theorem takeDigits_append (a b : List Char) (ha : ∀ c ∈ a, isDigit c = true)
    (hb : ∀ c rest, b = c :: rest → isDigit c = false) :
    takeDigits (a ++ b) = (a, b) := by
  induction a with
  | nil =>
    cases b with
    | nil => rfl
    | cons c rest => simp [takeDigits, hb c rest rfl]
  | cons x xs ih =>
    have hx := ha x (List.mem_cons_self _ _)
    have := ih (fun c hc => ha c (List.mem_cons_of_mem _ hc))
    simp [takeDigits, hx, this]

theorem isDigit_ne {d : Char} (h : isDigit d = true) :
    d ≠ ' ' ∧ d ≠ '\t' ∧ d ≠ '\n' ∧ d ≠ '\r' ∧ d ≠ '{' ∧ d ≠ '[' ∧ d ≠ '"' ∧ d ≠ 't' ∧ d ≠ 'f'
      ∧ d ≠ 'n' ∧ d ≠ '-' ∧ d ≠ '.' ∧ d ≠ 'e' ∧ d ≠ 'E' := by
  refine ⟨?_, ?_, ?_, ?_, ?_, ?_, ?_, ?_, ?_, ?_, ?_, ?_, ?_, ?_⟩ <;>
    (intro hc; subst hc; revert h; decide)

theorem digitsOf_zero : digitsOf (0 + 1) 0 = ['0'] := rfl

theorem scanUnsigned_digitsOf (n : Nat) (tail : List Char) :
    scanUnsigned (digitsOf (n + 1) n ++ ',' :: tail) = some (digitsOf (n + 1) n, ',' :: tail) := by
  obtain ⟨h1, _, d, rest, h3, h4⟩ := digitsOf_spec (n + 1) n (by omega)
  have hd : isDigit d = true := h1 d (by rw [h3]; exact List.mem_cons_self _ _)
  have hrest : ∀ c ∈ rest, isDigit c = true :=
    fun c hc => h1 c (by rw [h3]; exact List.mem_cons_of_mem _ hc)
  have hfrac : scanFrac (',' :: tail) = some ([], ',' :: tail) := rfl
  have hexp : scanExp (',' :: tail) = some ([], ',' :: tail) := by
    simp [scanExp]
  by_cases h0 : d = '0'
  · have hn := h4 h0
    subst hn
    rw [digitsOf_zero]
    simp only [List.cons_append, List.nil_append, scanUnsigned, show isDigit '0' = true from rfl,
      if_true, hfrac, hexp, List.append_nil]
  · have ht := takeDigits_append rest (',' :: tail) hrest
      (by intro c r hc; simp only [List.cons.injEq] at hc; rw [← hc.1]; rfl)
    rw [h3]
    simp only [List.cons_append, scanUnsigned, hd, if_true, h0, if_false, ht, List.cons_eq_cons,
      hfrac, hexp, List.append_nil]

theorem scanNumber_formatInt (e : Int) (tail : List Char) :
    scanNumber (formatInt e ++ ',' :: tail) = some (formatInt e, ',' :: tail) := by
  unfold formatInt
  by_cases he : e < 0
  · simp only [he, if_true, List.cons_append, scanNumber, scanUnsigned_digitsOf]
  · simp only [he, if_false]
    obtain ⟨h1, _, d, rest, h3, _⟩ := digitsOf_spec (e.natAbs + 1) e.natAbs (by omega)
    have hd : isDigit d = true := h1 d (by rw [h3]; exact List.mem_cons_self _ _)
    have hne : d ≠ '-' := (isDigit_ne hd).2.2.2.2.2.2.2.2.2.2.1
    have hs := scanUnsigned_digitsOf e.natAbs tail
    rw [h3] at hs ⊢
    simp only [List.cons_append] at hs ⊢
    unfold scanNumber
    split
    · rename_i r heq
      simp only [List.cons.injEq] at heq
      exact absurd heq.1 hne
    · exact hs

theorem formatInt_head (e : Int) :
    ∃ d rest, formatInt e = d :: rest ∧ (d = '-' ∨ isDigit d = true) := by
  unfold formatInt
  by_cases he : e < 0
  · exact ⟨'-', digitsOf (e.natAbs + 1) e.natAbs, by simp [he], Or.inl rfl⟩
  · obtain ⟨h1, _, d, rest, h3, _⟩ := digitsOf_spec (e.natAbs + 1) e.natAbs (by omega)
    exact ⟨d, rest, by simp [he, h3], Or.inr (h1 d (by rw [h3]; exact List.mem_cons_self _ _))⟩

/-- The value parser reads back a marshalled integer that a comma follows. -/
theorem parseValue_formatInt (e : Int) (fuel : Nat) (tail : List Char) :
    parseValue (fuel + 1) (formatInt e ++ ',' :: tail) = some (.num (formatInt e), ',' :: tail) := by
  have hs := scanNumber_formatInt e tail
  obtain ⟨d, rest, hf, hd⟩ := formatInt_head e
  rw [hf] at hs ⊢
  simp only [List.cons_append] at hs ⊢
  have hne : d ≠ ' ' ∧ d ≠ '\t' ∧ d ≠ '\n' ∧ d ≠ '\r' ∧ d ≠ '{' ∧ d ≠ '[' ∧ d ≠ '"' ∧ d ≠ 't'
      ∧ d ≠ 'f' ∧ d ≠ 'n' := by
    rcases hd with rfl | hd
    · decide
    · have := isDigit_ne hd
      tauto
  obtain ⟨n1, n2, n3, n4, n5, n6, n7, n8, n9, n10⟩ := hne
  rw [parseValue]
  simp only [skipWs, isWs, n1, n2, n3, n4, decide_False, Bool.or_self, Bool.false_eq_true,
    if_false, n5, n6, n7, n8, n9, n10, hs]

theorem digitsVal_digitsOf (n : Nat) : digitsVal (digitsOf (n + 1) n) = some n := by
  obtain ⟨_, h2, d, rest, h3, _⟩ := digitsOf_spec (n + 1) n (by omega)
  have := h2 0
  rw [h3] at this ⊢
  unfold digitsVal
  simpa using this

theorem parseInt64_formatInt (e : Int) (h1 : -(2 ^ 63) ≤ e) (h2 : e < 2 ^ 63) :
    parseInt64 (formatInt e) = some e := by
  unfold formatInt
  by_cases he : e < 0
  · simp only [he, if_true, parseInt64, digitsVal_digitsOf]
    have : e.natAbs ≤ 2 ^ 63 := by omega
    simp only [this, if_true, Option.some.injEq]
    omega
  · simp only [he, if_false]
    obtain ⟨h1', _, d, rest, h3, _⟩ := digitsOf_spec (e.natAbs + 1) e.natAbs (by omega)
    have hd : isDigit d = true := h1' d (by rw [h3]; exact List.mem_cons_self _ _)
    have hne : d ≠ '-' := (isDigit_ne hd).2.2.2.2.2.2.2.2.2.2.1
    have hv := digitsVal_digitsOf e.natAbs
    rw [h3] at hv ⊢
    unfold parseInt64
    split
    · rename_i r heq
      simp only [List.cons.injEq] at heq
      exact absurd heq.1 hne
    · rw [hv]
      have : e.natAbs < 2 ^ 63 := by omega
      simp only [this, if_true, Option.some.injEq]
      omega

/-! ## JSON objects -/

theorem parseMembers_key (value : List Char → Option (JVal × List Char)) (fuel : Nat)
    (acc : List (String × JVal)) (k : String) (r2 : List Char) :
    parseMembers value (fuel + 1) acc (marshalString k ++ ':' :: r2) =
      match value r2 with
      | none => none
      | some (v, r3) =>
        match skipWs r3 with
        | ',' :: r4 => parseMembers value fuel ((k, v) :: acc) r4
        | '}' :: r4 => some (.obj ((k, v) :: acc).reverse, r4)
        | _ => none := by
  have hl := length_le_flatMap_escapeRune k.data
  have hb := parseStrBody_escaped k.data
    (k.data.flatMap escapeRune ++ '"' :: ':' :: r2).length [] (':' :: r2)
    (by simp only [List.length_append, List.length_cons]; omega)
  have e : marshalString k ++ ':' :: r2 =
      '"' :: (k.data.flatMap escapeRune ++ '"' :: ':' :: r2) := by
    simp [marshalString]
  rw [e, parseMembers]
  simp only [skipWs, isWs, show ('"' : Char) ≠ ' ' by decide, show ('"' : Char) ≠ '\t' by decide,
    show ('"' : Char) ≠ '\n' by decide, show ('"' : Char) ≠ '\r' by decide,
    show (':' : Char) ≠ ' ' by decide, show (':' : Char) ≠ '\t' by decide,
    show (':' : Char) ≠ '\n' by decide, show (':' : Char) ≠ '\r' by decide,
    decide_False, Bool.or_self, Bool.false_eq_true, if_false, hb, List.reverse_nil,
    List.nil_append]

theorem parseMembers_comma {value : List Char → Option (JVal × List Char)} (fuel : Nat)
    (acc : List (String × JVal)) (k : String) {r2 r4 : List Char} {v : JVal}
    (h : value r2 = some (v, ',' :: r4)) :
    parseMembers value (fuel + 1) acc (marshalString k ++ ':' :: r2) =
      parseMembers value fuel ((k, v) :: acc) r4 := by
  rw [parseMembers_key, h]
  simp [skipWs, isWs]

theorem parseMembers_close {value : List Char → Option (JVal × List Char)} (fuel : Nat)
    (acc : List (String × JVal)) (k : String) {r2 r4 : List Char} {v : JVal}
    (h : value r2 = some (v, '}' :: r4)) :
    parseMembers value (fuel + 1) acc (marshalString k ++ ':' :: r2) =
      some (.obj ((k, v) :: acc).reverse, r4) := by
  rw [parseMembers_key, h]
  simp [skipWs, isWs]

theorem parseValue_object (fuel : Nat) (k : String) (r : List Char) :
    parseValue (fuel + 2) ('{' :: (marshalString k ++ r)) =
      parseMembers (parseValue (fuel + 1)) (marshalString k ++ r).length []
        (marshalString k ++ r) := by
  have e : marshalString k ++ r = '"' :: (k.data.flatMap escapeRune ++ '"' :: r) := by
    simp [marshalString]
  rw [e, parseValue]
  simp [skipWs, isWs]

theorem marshalStorage_issued (u : String) (e : Int) :
    marshalStorage (issued u e) =
      '{' :: (marshalString "username" ++ ':' :: (marshalString u ++ (optInt "exp" e ++
        ',' :: (marshalString "iss" ++ ':' :: (marshalString "ferriem" ++ ['}']))))) := by
  have h1 : "\x7b\"username\":".data = '{' :: (marshalString "username" ++ [':']) := by decide
  have h2 : optString "aud" "" = [] := rfl
  have h3 : optString "jti" "" = [] := rfl
  have h4 : optInt "iat" 0 = [] := rfl
  have h5 : optInt "nbf" 0 = [] := rfl
  have h6 : optString "sub" "" = [] := rfl
  have h7 : optString "iss" "ferriem" =
      ',' :: (marshalString "iss" ++ ':' :: marshalString "ferriem") := by decide
  simp only [marshalStorage, issued, h1, h2, h3, h4, h5, h6, h7, List.append_nil,
    List.cons_append, List.append_assoc, List.nil_append, List.singleton_append]
  rfl

theorem parseValue_issued (u : String) (e : Int) (fuel : Nat) :
    parseValue (fuel + 2) (marshalStorage (issued u e)) = some (.obj (issuedMembers u e), []) := by
  rw [marshalStorage_issued, parseValue_object]
  have hiss : parseValue (fuel + 1) (marshalString "ferriem" ++ ['}'])
      = some (.str "ferriem", '}' :: []) := parseValue_marshalString _ _ _
  by_cases he : e = 0
  · subst he
    have hx : optInt "exp" 0 = [] := rfl
    simp only [hx, List.nil_append, issuedMembers, if_true]
    generalize hF : (marshalString "username" ++ ':' :: (marshalString u ++
      ',' :: (marshalString "iss" ++ ':' :: (marshalString "ferriem" ++ ['}'])))).length = F
    obtain ⟨F', rfl⟩ : ∃ F', F = F' + 2 := by
      refine ⟨F - 2, ?_⟩
      simp only [List.length_append, List.length_cons] at hF
      omega
    rw [parseMembers_comma (F' + 1) [] "username" (parseValue_marshalString u fuel _),
      parseMembers_close F' _ "iss" hiss]
    rfl
  · have hx : optInt "exp" e = ',' :: (marshalString "exp" ++ ':' :: formatInt e) := by
      simp [optInt, he]
    simp only [hx, List.cons_append, List.append_assoc, issuedMembers, he, if_false]
    generalize hF : (marshalString "username" ++ ':' :: (marshalString u ++
      ',' :: (marshalString "exp" ++ ':' :: (formatInt e ++
      ',' :: (marshalString "iss" ++ ':' :: (marshalString "ferriem" ++ ['}'])))))).length = F
    obtain ⟨F', rfl⟩ : ∃ F', F = F' + 3 := by
      refine ⟨F - 3, ?_⟩
      simp only [List.length_append, List.length_cons] at hF
      omega
    rw [parseMembers_comma (F' + 2) [] "username" (parseValue_marshalString u fuel _),
      parseMembers_comma (F' + 1) _ "exp" (parseValue_formatInt e fuel _),
      parseMembers_close F' _ "iss" hiss]
    rfl

/-! ## The claims `GenToken` marshals decode to themselves -/

theorem storeMember_username (t : storage) (u : String) :
    storeMember t "username" (.str u) = some { t with Username := u } := rfl

theorem storeMember_exp (t : storage) (lit : List Char) :
    storeMember t "exp" (.num lit) =
      (parseInt64 lit).map fun n =>
        { t with StandardClaims := { t.StandardClaims with ExpiresAt := n } } := rfl

theorem storeMember_iss (t : storage) (s : String) :
    storeMember t "iss" (.str s) =
      some { t with StandardClaims := { t.StandardClaims with Issuer := s } } := rfl

theorem storeMembers_issued (u : String) (e : Int) (h1 : -(2 ^ 63) ≤ e) (h2 : e < 2 ^ 63) :
    storeMembers (issuedMembers u e) zeroStorage = some (issued u e) := by
  unfold issuedMembers
  by_cases he : e = 0
  · subst he
    simp only [if_true, storeMembers, storeMember_username, storeMember_iss]
    rfl
  · simp only [he, if_false, storeMembers, storeMember_username, storeMember_exp,
      parseInt64_formatInt e h1 h2, Option.map_some', storeMember_iss]
    rfl

theorem decodeStorage_issued (u : String) (e : Int) (h1 : -(2 ^ 63) ≤ e) (h2 : e < 2 ^ 63) :
    decodeStorage (toBytes (marshalStorage (issued u e))) = some (issued u e) := by
  unfold decodeStorage parseJSON
  rw [fromBytes_toBytes, show maxNestingDepth + 1 = 9999 + 2 from rfl, parseValue_issued]
  exact storeMembers_issued u e h1 h2

theorem decodeHeaderAlg_headerJSON :
    decodeHeaderAlg (toBytes headerJSON) = some (some "HS256") := by
  decide!

/-! ## Parsing a signed token -/

theorem split_three (a b c : List Nat) (ha : 46 ∉ a) (hb : 46 ∉ b) (hc : 46 ∉ c) :
    splitAll 46 (a ++ 46 :: (b ++ 46 :: c)) = [a, b, c] := by
  rw [splitAll_append _ ha, splitAll_append _ hb, splitAll_of_not_mem hc]

theorem tokenOf_ascii (header payload sig : List Nat) :
    ∀ b ∈ tokenOf header payload sig, b < 128 := by
  intro b hb
  simp only [tokenOf, EncodeSegment, List.mem_append, List.mem_cons] at hb
  rcases hb with h | rfl | h | rfl | h
  · exact (encodeQuanta_chars _ b h).2.2.2
  · decide
  · exact (encodeQuanta_chars _ b h).2.2.2
  · decide
  · exact (encodeQuanta_chars _ b h).2.2.2

/-- The parser on a token that carries the HMAC of its first two segments under the method
its header names: the result is decided by the decoding of the payload and by the clock. -/
theorem ParseWithClaims_signed (header payload key : List Nat) (now : Int) (alg : String)
    (h : Sha2) (hh : IsBytes header) (hp : IsBytes payload)
    (halg : decodeHeaderAlg header = some (some alg)) (hm : hmacMethod alg = some h) :
    ParseWithClaims (tokenOf header payload (macOf h key header payload)) key now =
      match decodeStorage payload with
      | none =>
        (some { Claims := .storage zeroStorage, Valid := false }, some ⟨ValidationErrorMalformed⟩)
      | some claims =>
        if claimsErrors claims.StandardClaims (Unix now) = 0 then
          (some { Claims := .storage claims, Valid := true }, none)
        else
          (some { Claims := .storage claims, Valid := false },
           some ⟨claimsErrors claims.StandardClaims (Unix now)⟩) := by
  have hs : IsBytes (macOf h key header payload) := hmac_isBytes _ _ _
  unfold ParseWithClaims tokenOf
  rw [split_three _ _ _ (EncodeSegment_no_dot _) (EncodeSegment_no_dot _)
    (EncodeSegment_no_dot _)]
  simp only [DecodeSegment_EncodeSegment hh, DecodeSegment_EncodeSegment hp, Option.some_bind,
    halg]
  cases decodeStorage payload with
  | none => rfl
  | some claims =>
    have hv : verifySignature alg (EncodeSegment header ++ 46 :: EncodeSegment payload)
        (EncodeSegment (macOf h key header payload)) key = true := by
      unfold verifySignature
      rw [hm]
      simp only [DecodeSegment_EncodeSegment hs]
      simp [macOf]
    simp only [hm, Option.isNone_some, Bool.false_eq_true, false_and, if_false, hv, if_true,
      Nat.or_zero]

theorem SignedString_eq (t : storage) (key : List Nat) :
    (SignedString t key).1 =
      String.mk (fromBytes (tokenOf (toBytes headerJSON) (toBytes (marshalStorage t))
        (macOf sha256 key (toBytes headerJSON) (toBytes (marshalStorage t))))) := by
  simp [SignedString, SigningString, tokenOf, macOf]

/-- The bytes of the string `SignedString` returns. -/
theorem SignedString_bytes (t : storage) (key : List Nat) :
    toBytes (SignedString t key).1.data =
      tokenOf (toBytes headerJSON) (toBytes (marshalStorage t))
        (macOf sha256 key (toBytes headerJSON) (toBytes (marshalStorage t))) := by
  rw [SignedString_eq]
  exact toBytes_fromBytes (tokenOf_ascii _ _ _)

theorem hmacMethod_HS256 : hmacMethod "HS256" = some sha256 := rfl

/-- The parser on a token `GenToken` issued: the claims come back, and whether the token is
valid is decided by the clock alone. -/
theorem ParseWithClaims_issued (u : String) (e : Int) (key : List Nat) (now : Int)
    (h1 : -(2 ^ 63) ≤ e) (h2 : e < 2 ^ 63) :
    ParseWithClaims (toBytes (SignedString (issued u e) key).1.data) key now =
      if claimsErrors (issued u e).StandardClaims (Unix now) = 0 then
        (some { Claims := .storage (issued u e), Valid := true }, none)
      else
        (some { Claims := .storage (issued u e), Valid := false },
         some ⟨claimsErrors (issued u e).StandardClaims (Unix now)⟩) := by
  rw [SignedString_bytes, ParseWithClaims_signed _ _ key now "HS256" sha256 (toBytes_isBytes _)
    (toBytes_isBytes _) decodeHeaderAlg_headerJSON hmacMethod_HS256,
    decodeStorage_issued u e h1 h2]

theorem claimsErrors_issued (u : String) (e now : Int) :
    claimsErrors (issued u e).StandardClaims now =
      if e ≠ 0 ∧ ¬ unixTime now < unixTime e then ValidationErrorExpired else 0 := by
  simp [claimsErrors, issued]

/-! ## Issue, then verify -/

theorem GenToken_eq (t0 : Int) (u : String) :
    GenToken jwtv4 t0 u = SignedString (issued u (Unix (t0 + TokenExpireDuration))) Secret := rfl

theorem GenToken_err (t0 : Int) (u : String) : (GenToken jwtv4 t0 u).2 = none := rfl

theorem jwtv4_ParseWithClaims : jwtv4.ParseWithClaims = ParseWithClaims := rfl

/-- The verifier on a token `GenToken` issued: the claims come back unless the token has a
non-zero expiry second and `time.Unix` of the clock's second is not before `time.Unix` of
it. -/
theorem ParseToken_issued (u : String) (t0 now : Int)
    (h1 : -(2 ^ 63) ≤ Unix (t0 + TokenExpireDuration))
    (h2 : Unix (t0 + TokenExpireDuration) < 2 ^ 63) :
    ParseToken jwtv4 now (toBytes (GenToken jwtv4 t0 u).1.data) =
      if Unix (t0 + TokenExpireDuration) ≠ 0
          ∧ ¬ unixTime (Unix now) < unixTime (Unix (t0 + TokenExpireDuration)) then
        .ret (none, some ⟨ValidationErrorExpired⟩)
      else .ret (some (issued u (Unix (t0 + TokenExpireDuration))), none) := by
  unfold ParseToken
  rw [GenToken_eq, jwtv4_ParseWithClaims, ParseWithClaims_issued u _ Secret now h1 h2,
    claimsErrors_issued]
  by_cases hc : Unix (t0 + TokenExpireDuration) ≠ 0
      ∧ ¬ unixTime (Unix now) < unixTime (Unix (t0 + TokenExpireDuration))
  · simp only [hc, and_self, not_false_eq_true, if_true, ne_eq]
    simp [ValidationErrorExpired]
  · simp only [hc, if_false]
    simp

theorem Unix_lt_iff (t e : Int) : Unix t < e ↔ t < e * Second := by
  unfold Unix Second
  exact Int.ediv_lt_iff_lt_mul (by norm_num)

theorem Unix_bounds (t : Int) : Unix t * Second ≤ t ∧ t < Unix t * Second + Second := by
  unfold Unix Second
  constructor
  · exact Int.ediv_mul_le t (by norm_num)
  · have := Int.lt_ediv_add_one_mul_self t (show (0 : Int) < 1000000000 by norm_num)
    linarith

/-- Seconds whose `time.Unix` does not wrap around keep their value up to the shift. -/
theorem unixTime_eq {s : Int} (h1 : -(2 ^ 63) ≤ s + unixToInternal)
    (h2 : s + unixToInternal < 2 ^ 63) : unixTime s = s + unixToInternal := by
  unfold unixTime wrap64
  rw [Int.emod_eq_of_lt (by omega) (by omega)]
  omega

/-- Seconds whose `time.Unix` does not wrap around are compared as they are. -/
theorem unixTime_lt_iff {a b : Int} (ha1 : -(2 ^ 63) ≤ a + unixToInternal)
    (ha2 : a + unixToInternal < 2 ^ 63) (hb1 : -(2 ^ 63) ≤ b + unixToInternal)
    (hb2 : b + unixToInternal < 2 ^ 63) : unixTime a < unixTime b ↔ a < b := by
  rw [unixTime_eq ha1 ha2, unixTime_eq hb1 hb2]
  omega

/-! ## The verifier on three segments behind the header `GenToken` writes -/

theorem storeString_eq_none {old : String} {v : JVal} (h1 : v ≠ .null)
    (h2 : ∀ s, v ≠ .str s) : storeString old v = none := by
  cases v with
  | null => exact absurd rfl h1
  | str s => exact absurd rfl (h2 s)
  | bool b => rfl
  | num lit => rfl
  | arr items => rfl
  | obj members => rfl

theorem storeInt_eq_none {old : Int} {v : JVal} (h1 : v ≠ .null)
    (h2 : ∀ lit, v = .num lit → parseInt64 lit = none) : storeInt old v = none := by
  cases v with
  | null => exact absurd rfl h1
  | num lit => exact h2 lit rfl
  | bool b => rfl
  | str s => rfl
  | arr items => rfl
  | obj members => rfl

/-- A member whose key names the field `username`, `iss` or `exp` and whose value cannot be
stored into it makes the decoding of the whole object fail. -/
theorem storeMembers_mistyped (members : List (String × JVal)) (t : storage) (k : String)
    (v : JVal) (hmem : (k, v) ∈ members)
    (hbad : ((findField storageFields k = some "username"
          ∨ findField storageFields k = some "iss") ∧ v ≠ .null ∧ ∀ s, v ≠ .str s)
      ∨ (findField storageFields k = some "exp" ∧ v ≠ .null
          ∧ ∀ lit, v = .num lit → parseInt64 lit = none)) :
    storeMembers members t = none := by
  induction members generalizing t with
  | nil => simp at hmem
  | cons m rest ih =>
    obtain ⟨k', v'⟩ := m
    simp only [storeMembers]
    rcases List.mem_cons.mp hmem with heq | hin
    · simp only [Prod.mk.injEq] at heq
      obtain ⟨rfl, rfl⟩ := heq
      have : storeMember t k v = none := by
        unfold storeMember
        rcases hbad with ⟨hk | hk, h1, h2⟩ | ⟨hk, h1, h2⟩
        · rw [hk]
          simp [storeString_eq_none h1 h2]
        · rw [hk]
          simp [storeString_eq_none h1 h2]
        · rw [hk]
          simp [storeInt_eq_none h1 h2]
      rw [this]
    · cases storeMember t k' v' with
      | none => rfl
      | some t1 => exact ih t1 hin

theorem storeMember_keeps (t t1 : storage) (k : String) (v : JVal)
    (h : storeMember t k v = some t1) :
    (findField storageFields k ≠ some "username" → t1.Username = t.Username)
    ∧ (findField storageFields k ≠ some "iss" →
        t1.StandardClaims.Issuer = t.StandardClaims.Issuer)
    ∧ (findField storageFields k ≠ some "exp" →
        t1.StandardClaims.ExpiresAt = t.StandardClaims.ExpiresAt) := by
  unfold storeMember at h
  simp only at h
  cases hf : findField storageFields k with
  | none =>
    rw [hf] at h
    simp only [Option.some.injEq] at h
    subst h
    simp
  | some name =>
    rw [hf] at h
    simp only at h
    split_ifs at h with n1 n2 n3 n4 n5 n6 n7 <;>
      simp only [Option.map_eq_some'] at h <;>
      obtain ⟨x, _, rfl⟩ := h <;>
      refine ⟨?_, ?_, ?_⟩ <;> intro hne <;> first
        | rfl
        | (subst_vars; exact absurd rfl hne)

/-- A field that no member of the object names keeps its zero value. -/
theorem storeMembers_keeps (members : List (String × JVal)) (t c : storage)
    (h : storeMembers members t = some c) :
    ((∀ m ∈ members, findField storageFields m.1 ≠ some "username") → c.Username = t.Username)
    ∧ ((∀ m ∈ members, findField storageFields m.1 ≠ some "iss") →
        c.StandardClaims.Issuer = t.StandardClaims.Issuer)
    ∧ ((∀ m ∈ members, findField storageFields m.1 ≠ some "exp") →
        c.StandardClaims.ExpiresAt = t.StandardClaims.ExpiresAt) := by
  induction members generalizing t with
  | nil =>
    simp only [storeMembers, Option.some.injEq] at h
    subst h
    simp
  | cons m rest ih =>
    obtain ⟨k, v⟩ := m
    simp only [storeMembers] at h
    cases hs : storeMember t k v with
    | none => rw [hs] at h; simp at h
    | some t1 =>
      rw [hs] at h
      obtain ⟨a1, a2, a3⟩ := storeMember_keeps t t1 k v hs
      obtain ⟨b1, b2, b3⟩ := ih t1 h
      refine ⟨?_, ?_, ?_⟩
      · intro hall
        rw [b1 (fun m hm => hall m (List.mem_cons_of_mem _ hm)),
          a1 (hall (k, v) (List.mem_cons_self _ _))]
      · intro hall
        rw [b2 (fun m hm => hall m (List.mem_cons_of_mem _ hm)),
          a2 (hall (k, v) (List.mem_cons_self _ _))]
      · intro hall
        rw [b3 (fun m hm => hall m (List.mem_cons_of_mem _ hm)),
          a3 (hall (k, v) (List.mem_cons_self _ _))]

theorem ParseToken_signed (header payload : List Nat) (now : Int) (alg : String)
    (h : Sha2) (hh : IsBytes header) (hp : IsBytes payload)
    (halg : decodeHeaderAlg header = some (some alg)) (hm : hmacMethod alg = some h) :
    ParseToken jwtv4 now (tokenOf header payload (macOf h Secret header payload)) =
      match decodeStorage payload with
      | none => .ret (none, some ⟨ValidationErrorMalformed⟩)
      | some claims =>
        if claimsErrors claims.StandardClaims (Unix now) = 0 then .ret (some claims, none)
        else .ret (none, some ⟨claimsErrors claims.StandardClaims (Unix now)⟩) := by
  unfold ParseToken
  rw [jwtv4_ParseWithClaims, ParseWithClaims_signed header payload Secret now alg h hh hp halg hm]
  cases decodeStorage payload with
  | none => simp
  | some claims =>
    by_cases hc : claimsErrors claims.StandardClaims (Unix now) = 0
    · simp [hc]
    · simp [hc]

/-! ## One token computed -/

/-- C1. Given the parser's contract, the gate calls `c.Next()` exactly when the header is
non-empty, reads `"Bearer " ++ tok`, and `ParseToken` succeeds on `tok`; it then sets
`"username"` to the claims' `Username` before the call. In every other case it calls
`c.Abort()`, sets no key and does not call `c.Next()`. -/
theorem gate_next_iff_token_verified (lib : JwtLib) (hlib : NilErrorMeansValid lib) (now : Int)
    (authHeader : String) :
    (Effect.Next ∈ JWTAuthMiddleware lib now authHeader ↔
      authHeader ≠ "" ∧ ∃ tok claims, authHeader = "Bearer " ++ tok ∧
        SplitN authHeader 2 = ["Bearer", tok] ∧
        ParseToken lib now (toBytes tok.data) = .ret (some claims, none))
    ∧ (∀ tok claims, authHeader = "Bearer " ++ tok →
        ParseToken lib now (toBytes tok.data) = .ret (some claims, none) →
        JWTAuthMiddleware lib now authHeader =
          [.Println "Bearer", .Set "username" claims.Username, .Println claims.Username, .Next])
    ∧ (Effect.Next ∉ JWTAuthMiddleware lib now authHeader →
        Effect.Abort ∈ JWTAuthMiddleware lib now authHeader ∧
        ∀ k v, Effect.Set k v ∉ JWTAuthMiddleware lib now authHeader) := by
  by_cases h1 : authHeader = ""
  · subst h1
    rw [gate_empty]
    refine ⟨?_, ?_, ?_⟩
    · simp
    · intro tok claims h
      exact absurd h.symm (bearer_ne_empty tok)
    · simp
  · by_cases h2 : ∃ tok, authHeader = "Bearer " ++ tok
    · obtain ⟨tok, rfl⟩ := h2
      rw [gate_bearer]
      have hinj : ∀ t : String, "Bearer " ++ tok = "Bearer " ++ t → t = tok := by
        intro t ht
        have := congrArg String.data ht
        simp only [String.data_append, List.append_cancel_left_eq] at this
        exact (String.ext this).symm
      rcases ParseToken_cases lib hlib now (toBytes tok.data) with ⟨c, hc⟩ | ⟨e, he⟩
      · refine ⟨?_, ?_, ?_⟩
        · refine iff_of_true (by simp [hc, afterParse]) ?_
          exact ⟨bearer_ne_empty tok, tok, c, rfl, SplitN_bearer tok, hc⟩
        · intro t claims ht hp
          rw [hinj t ht, hc] at hp
          simp only [Outcome.ret.injEq, Prod.mk.injEq, Option.some.injEq, and_true] at hp
          subst hp
          simp [hc, afterParse]
        · simp [hc, afterParse]
      · refine ⟨?_, ?_, ?_⟩
        · refine iff_of_false (by simp [he, afterParse]) ?_
          rintro ⟨_, t, claims, ht, _, hp⟩
          rw [hinj t ht, he] at hp
          simp at hp
        · intro t claims ht hp
          rw [hinj t ht, he] at hp
          simp at hp
        · simp [he, afterParse]
    · have h2' : ∀ tok, authHeader ≠ "Bearer " ++ tok := fun tok h => h2 ⟨tok, h⟩
      rw [gate_not_bearer lib now authHeader h1 h2']
      refine ⟨?_, ?_, ?_⟩
      · refine iff_of_false (by simp) ?_
        rintro ⟨_, t, claims, ht, _⟩
        exact absurd ht (h2' t)
      · intro t claims ht
        exact absurd ht (h2' t)
      · simp

/-- C1, at a request that carries the token issued at time 0, fifty seconds later. -/
theorem gate_next_iff_token_verified_witness :
    Effect.Next ∈ JWTAuthMiddleware jwtv4 (50 * Second)
      ("Bearer " ++ (GenToken jwtv4 0 "root").1) :=
  ((gate_next_iff_token_verified jwtv4 jwtv4_nilError (50 * Second)
      ("Bearer " ++ (GenToken jwtv4 0 "root").1)).1).mpr
    ⟨bearer_ne_empty _, (GenToken jwtv4 0 "root").1, issued "root" 120, rfl, SplitN_bearer _,
      by rw [ParseToken_issued "root" 0 (50 * Second) (by decide) (by decide)]; decide⟩

/-! ## C2: the login token verifies -/

/-- C2. For the account `root` / `123456` and every issuance time whose expiry second fits
an `int64`, `authHandler` answers 200, `success` and the token `GenToken` made, and at every
time before the token's expiry `ParseToken` returns claims with the login username. Before is
as the verifier compares the two seconds, through `time.Unix`; it is the plain order of the
instants whenever the seconds are in the range a `time.Time` holds. -/
theorem login_token_verifies (t0 : Int)
    (h1 : -(2 ^ 63) ≤ Unix (t0 + TokenExpireDuration))
    (h2 : Unix (t0 + TokenExpireDuration) < 2 ^ 63) :
    authHandler jwtv4 t0 (some { Username := "root", Password := "123456" }) =
      [.JSON 200 [("code", .num 200), ("msg", .str "success"),
        ("data", .obj [("token", (GenToken jwtv4 t0 "root").1)])]]
    ∧ (∀ t : Int, unixTime (Unix t) < unixTime (Unix (t0 + TokenExpireDuration)) →
        ∃ claims, ParseToken jwtv4 t (toBytes (GenToken jwtv4 t0 "root").1.data)
            = .ret (some claims, none)
          ∧ claims.Username = "root"
          ∧ claims.StandardClaims.ExpiresAt = Unix (t0 + TokenExpireDuration))
    ∧ (∀ t : Int, -(2 ^ 63) ≤ Unix t + unixToInternal →
        Unix (t0 + TokenExpireDuration) + unixToInternal < 2 ^ 63 →
        t < Unix (t0 + TokenExpireDuration) * Second →
        ∃ claims, ParseToken jwtv4 t (toBytes (GenToken jwtv4 t0 "root").1.data)
            = .ret (some claims, none)
          ∧ claims.Username = "root"
          ∧ claims.StandardClaims.ExpiresAt = Unix (t0 + TokenExpireDuration)) := by
  have key : ∀ t : Int, unixTime (Unix t) < unixTime (Unix (t0 + TokenExpireDuration)) →
      ∃ claims, ParseToken jwtv4 t (toBytes (GenToken jwtv4 t0 "root").1.data)
          = .ret (some claims, none)
        ∧ claims.Username = "root"
        ∧ claims.StandardClaims.ExpiresAt = Unix (t0 + TokenExpireDuration) := by
    intro t ht
    refine ⟨issued "root" (Unix (t0 + TokenExpireDuration)), ?_, rfl, rfl⟩
    rw [ParseToken_issued "root" t0 t h1 h2, if_neg]
    rintro ⟨_, h⟩
    exact h ht
  refine ⟨?_, key, ?_⟩
  · have hb : ShouldBind (some { Username := "root", Password := "123456" })
        = some { Username := "root", Password := "123456" } := by decide
    unfold authHandler
    rw [hb]
    simp only [and_self, if_true, GenToken_err, List.nil_append, StatusOK]
  · intro t ht1 he2 ht
    have hlt : Unix t < Unix (t0 + TokenExpireDuration) := (Unix_lt_iff _ _).mpr ht
    have hk : unixToInternal = 62135596800 := rfl
    exact key t ((unixTime_lt_iff ht1 (by omega) (by omega) he2).mpr hlt)

/-- C2, for a login at 2023-11-14 22:13:20.5 UTC. -/
theorem login_token_verifies_witness :
    ∃ claims, ParseToken jwtv4 1700000100000000000
        (toBytes (GenToken jwtv4 1700000000500000000 "root").1.data) = .ret (some claims, none)
      ∧ claims.Username = "root" ∧ claims.StandardClaims.ExpiresAt = 1700000120 :=
  (login_token_verifies 1700000000500000000 (by decide) (by decide)).2.2
    1700000100000000000 (by decide) (by decide) (by decide)

/-! ## C3: the expiry boundary -/

/-- C3 as stated fails, in two ways. A token issued half a second after the epoch carries the
expiry second 120, not the instant 120.5 s, and is rejected as expired at 120.2 s, which is
before issuance time plus TTL. A token issued 119.5 s before the epoch has the expiry second
0, which is left out of the claims and never checked: the token is accepted 130 s after the
epoch, long after issuance time plus TTL. -/
theorem expiry_is_rounded_down_and_zero_never_expires :
    (500000000 : Int) + TokenExpireDuration = 120500000000
    ∧ ParseToken jwtv4 500000000 (toBytes (GenToken jwtv4 500000000 "root").1.data)
        = .ret (some
            { Username := "root"
              StandardClaims :=
                { Audience := "", ExpiresAt := 120, Id := "", IssuedAt := 0,
                  Issuer := "ferriem", NotBefore := 0, Subject := "" } }, none)
    ∧ (120200000000 : Int) < 500000000 + TokenExpireDuration
    ∧ ParseToken jwtv4 120200000000 (toBytes (GenToken jwtv4 500000000 "root").1.data)
        = .ret (none, some ⟨ValidationErrorExpired⟩)
    ∧ (-119500000000 : Int) + TokenExpireDuration = 500000000
    ∧ (500000000 : Int) ≤ 130 * Second
    ∧ ParseToken jwtv4 (130 * Second) (toBytes (GenToken jwtv4 (-119500000000) "root").1.data)
        = .ret (some
            { Username := "root"
              StandardClaims :=
                { Audience := "", ExpiresAt := 0, Id := "", IssuedAt := 0,
                  Issuer := "ferriem", NotBefore := 0, Subject := "" } }, none) := by
  refine ⟨by decide, ?_, by decide, ?_, by decide, by decide, ?_⟩
  · rw [ParseToken_issued "root" 500000000 500000000 (by decide) (by decide), if_neg]
    · rfl
    · decide
  · rw [ParseToken_issued "root" 500000000 120200000000 (by decide) (by decide), if_pos]
    decide
  · rw [ParseToken_issued "root" (-119500000000) (130 * Second) (by decide) (by decide), if_neg]
    · rfl
    · decide

/-- C3, amended. For every username and every issuance time `t0` whose expiry second
`e = Unix (t0 + TTL)` fits an `int64`, with TTL 120 s: the token carries `ExpiresAt = e`, the
instant `t0 + TTL` rounded down to a whole second (it is `t0 + TTL` exactly when `t0` is a
whole second, and less than one second earlier otherwise). `ParseToken` rejects the token as
expired exactly when `e` is not 0 and `time.Unix` of the clock's second is not before
`time.Unix` of `e`. With the seconds in the range a `time.Time` holds: the token is accepted at
every time before second `e`; when `e` is not 0 it is rejected as expired at every time from
second `e` on, so at `t0 + TTL` and at every later time. When `e` is 0 the token is accepted
at every time. -/
theorem token_expires_at_floor_second (u : String) (t0 e : Int)
    (he : e = Unix (t0 + TokenExpireDuration)) (h1 : -(2 ^ 63) ≤ e) (h2 : e < 2 ^ 63) :
    TokenExpireDuration = 120 * Second
    ∧ e * Second ≤ t0 + TokenExpireDuration
    ∧ t0 + TokenExpireDuration < e * Second + Second
    ∧ (t0 % Second = 0 ↔ e * Second = t0 + TokenExpireDuration)
    ∧ (∀ t : Int, ParseToken jwtv4 t (toBytes (GenToken jwtv4 t0 u).1.data) =
        if e ≠ 0 ∧ ¬ unixTime (Unix t) < unixTime e then
          .ret (none, some ⟨ValidationErrorExpired⟩)
        else
          .ret (some
            { Username := u
              StandardClaims :=
                { Audience := "", ExpiresAt := e, Id := "", IssuedAt := 0, Issuer := "ferriem",
                  NotBefore := 0, Subject := "" } }, none))
    ∧ (∀ t : Int, -(2 ^ 63) ≤ Unix t + unixToInternal → e + unixToInternal < 2 ^ 63 →
        t < e * Second →
        ∃ claims, ParseToken jwtv4 t (toBytes (GenToken jwtv4 t0 u).1.data)
            = .ret (some claims, none)
          ∧ claims.StandardClaims.ExpiresAt = e)
    ∧ (e ≠ 0 → ∀ t : Int, Unix t + unixToInternal < 2 ^ 63 → e * Second ≤ t →
        ParseToken jwtv4 t (toBytes (GenToken jwtv4 t0 u).1.data)
          = .ret (none, some ⟨ValidationErrorExpired⟩))
    ∧ (e ≠ 0 → ∀ t : Int, Unix t + unixToInternal < 2 ^ 63 → t0 + TokenExpireDuration ≤ t →
        ParseToken jwtv4 t (toBytes (GenToken jwtv4 t0 u).1.data)
          = .ret (none, some ⟨ValidationErrorExpired⟩))
    ∧ (e = 0 → ∀ t : Int,
        ∃ claims, ParseToken jwtv4 t (toBytes (GenToken jwtv4 t0 u).1.data)
            = .ret (some claims, none)
          ∧ claims.StandardClaims.ExpiresAt = 0) := by
  subst he
  have hb := Unix_bounds (t0 + TokenExpireDuration)
  have hk : unixToInternal = 62135596800 := rfl
  have hd : TokenExpireDuration = 120 * Second := by decide
  have hpt := fun t => ParseToken_issued u t0 t h1 h2
  have hrej : Unix (t0 + TokenExpireDuration) ≠ 0 →
      ∀ t : Int, Unix t + unixToInternal < 2 ^ 63 →
        Unix (t0 + TokenExpireDuration) * Second ≤ t →
        ParseToken jwtv4 t (toBytes (GenToken jwtv4 t0 u).1.data)
          = .ret (none, some ⟨ValidationErrorExpired⟩) := by
    intro h0 t ht2 ht
    have hge : ¬ Unix t < Unix (t0 + TokenExpireDuration) := by
      rw [Unix_lt_iff]
      omega
    rw [hpt t, if_pos]
    refine ⟨h0, ?_⟩
    rw [unixTime_lt_iff (by omega) ht2 (by omega) (by omega)]
    exact hge
  refine ⟨hd, hb.1, hb.2, ?_, ?_, ?_, hrej, ?_, ?_⟩
  · have hm := Int.ediv_add_emod (t0 + TokenExpireDuration) Second
    have he : (t0 + TokenExpireDuration) % Second = t0 % Second := by
      rw [hd, Int.add_mul_emod_self]
    rw [he] at hm
    unfold Unix
    constructor
    · intro hw
      rw [hw] at hm
      linarith [mul_comm ((t0 + TokenExpireDuration) / Second) Second]
    · intro hw
      linarith [mul_comm ((t0 + TokenExpireDuration) / Second) Second]
  · intro t
    rw [hpt t]
    rfl
  · intro t ht1 he2 ht
    refine ⟨issued u (Unix (t0 + TokenExpireDuration)), ?_, rfl⟩
    have hlt : Unix t < Unix (t0 + TokenExpireDuration) := (Unix_lt_iff _ _).mpr ht
    rw [hpt t, if_neg]
    rintro ⟨_, h⟩
    exact h ((unixTime_lt_iff ht1 (by omega) (by omega) he2).mpr hlt)
  · intro h0 t ht2 ht
    exact hrej h0 t ht2 (le_trans hb.1 ht)
  · intro h0 t
    refine ⟨issued u (Unix (t0 + TokenExpireDuration)), ?_, h0⟩
    rw [hpt t, if_neg]
    rintro ⟨h, _⟩
    exact h h0

/-- C3 amended, for a token issued at 2023-11-14 22:13:20.5 UTC: rejected as expired at
22:15:20.0, half a second before issuance time plus TTL. -/
theorem token_expires_at_floor_second_witness :
    ParseToken jwtv4 1700000120000000000
        (toBytes (GenToken jwtv4 1700000000500000000 "root").1.data)
      = .ret (none, some ⟨ValidationErrorExpired⟩) :=
  (token_expires_at_floor_second "root" 1700000000500000000 1700000120 (by decide) (by decide)
    (by decide)).2.2.2.2.2.2.1 (by decide) 1700000120000000000 (by decide) (by decide)

/-! ## C4: malformed headers -/

/-- C4 as stated fails: the header `Bearer a b` is not three pieces to `SplitN(_, " ", 2)`; the
gate takes `a b` for the token, hands it to `ParseToken` and answers `token invalid`, not
`authHeader format error`. -/
theorem bearer_with_second_space_reaches_ParseToken :
    SplitN "Bearer a b" 2 = ["Bearer", "a b"] ∧
    JWTAuthMiddleware jwtv4 0 "Bearer a b" =
      [.Println "Bearer",
       .JSON 200 [("code", .num 400), ("msg", .str "token invalid")],
       .Abort] ∧
    Effect.JSON 200 [("code", .num 404), ("msg", .str "authHeader format error")] ∉
      JWTAuthMiddleware jwtv4 0 "Bearer a b" := by
  decide

/-- C4, amended. A non-empty header that does not start with the case-sensitive `Bearer`
followed by a space is answered with `authHeader format error` and the request is aborted,
whatever the parser is (so `ParseToken` has no part in it). A header `"Bearer " ++ tok` is
split into exactly `Bearer` and `tok`, where `tok` is all the text after the first space
(it may be empty or hold further spaces), and the answer is decided by `ParseToken` on the
bytes of `tok`. -/
theorem malformed_header_iff_no_bearer_space (lib : JwtLib) (now : Int) (authHeader : String)
    (hne : authHeader ≠ "") :
    ((∀ tok, authHeader ≠ "Bearer " ++ tok) →
      JWTAuthMiddleware lib now authHeader =
        [.Println ((SplitN authHeader 2).headD ""),
         .JSON 200 [("code", .num 404), ("msg", .str "authHeader format error")],
         .Abort])
    ∧ (∀ tok, authHeader = "Bearer " ++ tok →
        SplitN authHeader 2 = ["Bearer", tok] ∧
        Effect.JSON 200 [("code", .num 404), ("msg", .str "authHeader format error")] ∉
          JWTAuthMiddleware lib now authHeader ∧
        JWTAuthMiddleware lib now authHeader =
          .Println "Bearer" ::
            match ParseToken lib now (toBytes tok.data) with
            | .panic => [.panic]
            | .ret (some m, none) => [.Set "username" m.Username, .Println m.Username, .Next]
            | .ret (none, none) => [.panic]
            | .ret (_, some _) =>
              [.JSON 200 [("code", .num 400), ("msg", .str "token invalid")], .Abort]) := by
  refine ⟨fun h => gate_not_bearer lib now authHeader hne h, ?_⟩
  rintro tok rfl
  refine ⟨SplitN_bearer tok, ?_, ?_⟩
  · rw [gate_bearer]
    rcases ParseToken lib now (toBytes tok.data) with ⟨msg, err⟩ | _
    · cases err <;> cases msg <;> simp [afterParse, StatusOK]
    · simp [afterParse]
  · rw [gate_bearer]
    rcases ParseToken lib now (toBytes tok.data) with ⟨msg, err⟩ | _
    · cases err <;> cases msg <;> simp [afterParse, StatusOK]
    · simp [afterParse]

/-- C4 amended, at the headers `bearer x` and `Bearer`. -/
theorem malformed_header_iff_no_bearer_space_witness :
    JWTAuthMiddleware jwtv4 0 "bearer x" =
      [.Println "bearer",
       .JSON 200 [("code", .num 404), ("msg", .str "authHeader format error")], .Abort]
    ∧ JWTAuthMiddleware jwtv4 0 "Bearer" =
      [.Println "Bearer",
       .JSON 200 [("code", .num 404), ("msg", .str "authHeader format error")], .Abort] :=
  ⟨(malformed_header_iff_no_bearer_space jwtv4 0 "bearer x" (by decide)).1
      (fun tok h => by
        have := congrArg (fun s => s.data.head?) h
        simp [String.data_append] at this),
   (malformed_header_iff_no_bearer_space jwtv4 0 "Bearer" (by decide)).1
      (fun tok h => by
        have := congrArg (fun s => s.data.length) h
        simp [String.data_append] at this)⟩

/-! ## C5: rejected logins -/

/-- C5 as stated fails: a pair with an empty password is not answered `auth failed` but
`invalid params`, because both fields of `UserInfo` are `binding:"required"`. -/
theorem empty_password_is_invalid_params :
    authHandler jwtv4 0 (some { Username := "root", Password := "" }) =
      [.JSON 200 [("code", .num 404), ("msg", .str "invalid params")]]
    ∧ authHandler jwtv4 0 (some { Username := "root", Password := "wrong" }) =
      [.JSON 200 [("code", .num 400), ("msg", .str "auth failed")]]
    ∧ authHandler jwtv4 0 (some { Username := "root", Password := "" }) ≠
      authHandler jwtv4 0 (some { Username := "root", Password := "wrong" }) := by
  decide

/-- C5, amended. For every pair other than `("root", "123456")` the handler issues no token
and its answer depends only on whether a field is empty: `invalid params` (code 404) when the
username or the password is empty, `auth failed` (code 400) otherwise. Whether the username is
the configured one plays no part. -/
theorem rejected_login_answer (lib : JwtLib) (now : Int) (username password : String)
    (h : ¬ (username = "root" ∧ password = "123456")) :
    authHandler lib now (some { Username := username, Password := password }) =
      if username = "" ∨ password = "" then
        [.JSON 200 [("code", .num 404), ("msg", .str "invalid params")]]
      else
        [.JSON 200 [("code", .num 400), ("msg", .str "auth failed")]] := by
  unfold authHandler ShouldBind
  by_cases h1 : username = "" ∨ password = ""
  · simp [h1, StatusOK]
  · simp only [h1, if_false, h, StatusOK]

/-- C5 amended, at an unknown user and at a wrong password for `root`. -/
theorem rejected_login_answer_witness :
    authHandler jwtv4 0 (some { Username := "nobody", Password := "123456" }) =
      [.JSON 200 [("code", .num 400), ("msg", .str "auth failed")]]
    ∧ authHandler jwtv4 0 (some { Username := "root", Password := "wrong" }) =
      [.JSON 200 [("code", .num 400), ("msg", .str "auth failed")]] :=
  ⟨rejected_login_answer jwtv4 0 "nobody" "123456" (by decide),
   rejected_login_answer jwtv4 0 "root" "wrong" (by decide)⟩

/-! ## C6: the answers of a rejection -/

/-- C6 as stated fails: a request without `Authorization` header is answered with HTTP status
200 and the body `{"code":400,"msg":"authHeader empty"}`, not with 401 and an `error` field;
a token issued 130 seconds ago is answered with 200 and `{"code":400,"msg":"token invalid"}`. -/
theorem missing_header_is_answered_200 :
    JWTAuthMiddleware jwtv4 0 "" =
      [.JSON 200 [("code", .num 400), ("msg", .str "authHeader empty")],
       .Println "authHeader empty", .Abort]
    ∧ Effect.JSON 401 [("error", .str "MissingCredentials")] ∉ JWTAuthMiddleware jwtv4 0 ""
    ∧ JWTAuthMiddleware jwtv4 (130 * Second) ("Bearer " ++ (GenToken jwtv4 0 "root").1) =
      [.Println "Bearer", .JSON 200 [("code", .num 400), ("msg", .str "token invalid")],
       .Abort]
    ∧ Effect.JSON 401 [("error", .str "TokenExpired")] ∉
        JWTAuthMiddleware jwtv4 (130 * Second) ("Bearer " ++ (GenToken jwtv4 0 "root").1) := by
  have h : JWTAuthMiddleware jwtv4 (130 * Second) ("Bearer " ++ (GenToken jwtv4 0 "root").1) =
      [.Println "Bearer", .JSON 200 [("code", .num 400), ("msg", .str "token invalid")],
       .Abort] := by
    rw [gate_bearer, ParseToken_issued "root" 0 (130 * Second) (by decide) (by decide), if_pos]
    · rfl
    · decide
  refine ⟨by decide, by decide, h, ?_⟩
  rw [h]
  decide

/-- C6, amended. Every rejection of the gate is answered with HTTP status 200 and a body of a
`code` and a `msg`: `400 authHeader empty` for a missing header, `404 authHeader format error`
for a header that does not start with `Bearer` and a space, `400 token invalid` for every
error of `ParseToken`, expiry included: a token issued 130 seconds ago, with an expiry second
other than 0 and the seconds in the range a `time.Time` holds, gets `token invalid`. -/
theorem rejection_is_200_code_msg (lib : JwtLib) (now : Int) (authHeader : String) :
    (authHeader = "" →
      JWTAuthMiddleware lib now authHeader =
        [.JSON 200 [("code", .num 400), ("msg", .str "authHeader empty")],
         .Println "authHeader empty", .Abort])
    ∧ (authHeader ≠ "" → (∀ tok, authHeader ≠ "Bearer " ++ tok) →
      JWTAuthMiddleware lib now authHeader =
        [.Println ((SplitN authHeader 2).headD ""),
         .JSON 200 [("code", .num 404), ("msg", .str "authHeader format error")], .Abort])
    ∧ (∀ tok msg e, authHeader = "Bearer " ++ tok →
      ParseToken lib now (toBytes tok.data) = .ret (msg, some e) →
      JWTAuthMiddleware lib now authHeader =
        [.Println "Bearer", .JSON 200 [("code", .num 400), ("msg", .str "token invalid")],
         .Abort])
    ∧ (Effect.Abort ∈ JWTAuthMiddleware lib now authHeader →
      ∃ body, Effect.JSON 200 body ∈ JWTAuthMiddleware lib now authHeader
        ∧ (body = [("code", .num 400), ("msg", .str "authHeader empty")]
          ∨ body = [("code", .num 404), ("msg", .str "authHeader format error")]
          ∨ body = [("code", .num 400), ("msg", .str "token invalid")])
        ∧ ∀ st b, Effect.JSON st b ∈ JWTAuthMiddleware lib now authHeader → st = 200 ∧ b = body)
    ∧ (∀ (u : String) (t0 : Int), Unix (t0 + TokenExpireDuration) ≠ 0 →
      -(2 ^ 63) ≤ Unix (t0 + TokenExpireDuration) →
      Unix (t0 + 130 * Second) + unixToInternal < 2 ^ 63 →
      JWTAuthMiddleware jwtv4 (t0 + 130 * Second) ("Bearer " ++ (GenToken jwtv4 t0 u).1) =
        [.Println "Bearer", .JSON 200 [("code", .num 400), ("msg", .str "token invalid")],
         .Abort]) := by
  refine ⟨?_, ?_, ?_, ?_, ?_⟩
  · rintro rfl
    exact gate_empty lib now
  · intro h1 h2
    exact gate_not_bearer lib now authHeader h1 h2
  · rintro tok msg e rfl hp
    rw [gate_bearer, hp]
    simp [afterParse, StatusOK]
  · by_cases h1 : authHeader = ""
    · subst h1
      rw [gate_empty]
      intro _
      exact ⟨_, by simp [StatusOK], Or.inl rfl, by simp [StatusOK]⟩
    · by_cases h2 : ∃ tok, authHeader = "Bearer " ++ tok
      · obtain ⟨tok, rfl⟩ := h2
        rw [gate_bearer]
        rcases hp : ParseToken lib now (toBytes tok.data) with ⟨msg, err⟩ | _
        · cases err with
          | some e =>
            intro _
            exact ⟨_, by simp [afterParse, StatusOK], Or.inr (Or.inr rfl),
              by simp [afterParse, StatusOK]⟩
          | none =>
            cases msg <;> simp [afterParse]
        · simp [afterParse]
      · rw [gate_not_bearer lib now authHeader h1 (fun tok h => h2 ⟨tok, h⟩)]
        intro _
        exact ⟨_, by simp [StatusOK], Or.inr (Or.inl rfl), by simp [StatusOK]⟩
  · intro u t0 h0 h1 h2
    have hk : unixToInternal = 62135596800 := rfl
    have hu : Unix (t0 + 130 * Second) = Unix (t0 + TokenExpireDuration) + 10 := by
      have e : t0 + 130 * Second = t0 + TokenExpireDuration + 10 * Second := by
        have hd : TokenExpireDuration = 120 * Second := by decide
        rw [hd]
        ring
      rw [e]
      unfold Unix
      exact Int.add_mul_ediv_right _ _ (by decide)
    rw [hu] at h2
    rw [gate_bearer, ParseToken_issued u t0 _ h1 (by omega), if_pos]
    · rfl
    · refine ⟨h0, ?_⟩
      rw [hu, unixTime_lt_iff (by omega) h2 (by omega) (by omega)]
      omega

/-! ## C7: missing and mistyped claims -/

set_option maxRecDepth 1000000 in
/-- C7 as stated fails: the token whose payload segment `e30` is the empty object, signed
with `Secret`, has no username, no issuer and no expiry; `ParseToken` verifies its signature
and accepts it, with the zero values in their place. -/
theorem empty_claims_token_accepted :
    ParseToken jwtv4 0 (toBytes
        "eyJhbGciOiJIUzI1NiIsInR5cCI6IkpXVCJ9.e30.t-IDcSemACt8x4iTMCda8Yhe3iZaWbvV5XKSTbuAn0M".data)
      = .ret (some
          { Username := ""
            StandardClaims :=
              { Audience := "", ExpiresAt := 0, Id := "", IssuedAt := 0, Issuer := "",
                NotBefore := 0, Subject := "" } }, none)
    ∧ DecodeSegment (toBytes "e30".data) = some (toBytes "\x7b\x7d".data) := by
  constructor
  · decide!
  · decide

/-- C7, amended. Take a token that carries the HMAC of its first two segments under the
method its header names. `ParseToken` fails on it, with a malformed-token error, when the
payload does not decode; and a payload object does not decode when a member whose key names
`username` or `iss` (exactly, or up to the case of its letters) has a value that is neither a
string nor `null`, or a member whose key names `exp` has a value that is neither `null` nor a
number literal `ParseInt` reads as an `int64`. A field that no member names is not a failure:
it keeps its zero value, `""` or `0`. Claims that decode are accepted whenever the clock
checks pass, and a zero `exp`, `iat` or `nbf` is not checked. -/
theorem mistyped_claim_fails_missing_claim_is_zero (header payload : List Nat) (alg : String)
    (h : Sha2) (now : Int) (hh : IsBytes header) (hp : IsBytes payload)
    (halg : decodeHeaderAlg header = some (some alg)) (hm : hmacMethod alg = some h) :
    (decodeStorage payload = none →
      ParseToken jwtv4 now (tokenOf header payload (macOf h Secret header payload)) =
        .ret (none, some ⟨ValidationErrorMalformed⟩))
    ∧ (∀ members rest k v, parseJSON payload = some (.obj members, rest) → (k, v) ∈ members →
        (((findField storageFields k = some "username" ∨ findField storageFields k = some "iss")
            ∧ v ≠ .null ∧ ∀ s, v ≠ .str s)
          ∨ (findField storageFields k = some "exp" ∧ v ≠ .null
            ∧ ∀ lit, v = .num lit → parseInt64 lit = none)) →
        decodeStorage payload = none)
    ∧ (∀ members rest claims, parseJSON payload = some (.obj members, rest) →
        decodeStorage payload = some claims →
        ((∀ m ∈ members, findField storageFields m.1 ≠ some "username") → claims.Username = "")
        ∧ ((∀ m ∈ members, findField storageFields m.1 ≠ some "iss") →
            claims.StandardClaims.Issuer = "")
        ∧ ((∀ m ∈ members, findField storageFields m.1 ≠ some "exp") →
            claims.StandardClaims.ExpiresAt = 0))
    ∧ (∀ claims, decodeStorage payload = some claims →
        claimsErrors claims.StandardClaims (Unix now) = 0 →
        ParseToken jwtv4 now (tokenOf header payload (macOf h Secret header payload)) =
          .ret (some claims, none))
    ∧ (∀ claims : storage, claims.StandardClaims.ExpiresAt = 0 →
        claims.StandardClaims.IssuedAt = 0 → claims.StandardClaims.NotBefore = 0 →
        claimsErrors claims.StandardClaims (Unix now) = 0) := by
  have hpt := ParseToken_signed header payload now alg h hh hp halg hm
  refine ⟨?_, ?_, ?_, ?_, ?_⟩
  · intro hd
    rw [hpt, hd]
  · intro members rest k v hj hmem hbad
    unfold decodeStorage
    rw [hj]
    exact storeMembers_mistyped members zeroStorage k v hmem hbad
  · intro members rest claims hj hd
    unfold decodeStorage at hd
    rw [hj] at hd
    exact storeMembers_keeps members zeroStorage claims hd
  · intro claims hd hc
    rw [hpt, hd]
    simp [hc]
  · intro claims h1 h2 h3
    simp [claimsErrors, h1, h2, h3]

set_option maxRecDepth 1000000 in
/-- C7 amended, at the payload `{"exp":"soon"}` signed with HS256: its member `exp` is a
string, the payload does not decode, and the token is rejected as malformed. -/
theorem mistyped_claim_fails_missing_claim_is_zero_witness :
    ParseToken jwtv4 0
      (tokenOf (toBytes headerJSON) (toBytes "\x7b\"exp\":\"soon\"\x7d".data)
        (macOf sha256 Secret (toBytes headerJSON) (toBytes "\x7b\"exp\":\"soon\"\x7d".data)))
      = .ret (none, some ⟨ValidationErrorMalformed⟩) :=
  (mistyped_claim_fails_missing_claim_is_zero (toBytes headerJSON)
    (toBytes "\x7b\"exp\":\"soon\"\x7d".data) "HS256" sha256 0 (toBytes_isBytes _)
    (toBytes_isBytes _) decodeHeaderAlg_headerJSON hmacMethod_HS256).1 (by decide!)

/-! ## C8: a changed token -/

/-- C9. Given that the parser returns a nil error only with a valid token that holds the
supplied claims, the gate never panics: `parts[0]` exists for a non-empty header, and
`ParseToken` neither panics nor returns `(nil, nil)`. -/
theorem gate_never_panics (lib : JwtLib) (hlib : NilErrorMeansValid lib) (now : Int)
    (authHeader : String) :
    Effect.panic ∉ JWTAuthMiddleware lib now authHeader
    ∧ (authHeader ≠ "" → ∃ p0, (SplitN authHeader 2)[0]? = some p0)
    ∧ (∀ tok : List Nat, ParseToken lib now tok ≠ .panic ∧ ParseToken lib now tok ≠ .ret (none, none)
        ∧ ∀ msg, ParseToken lib now tok = .ret (msg, none) → msg ≠ none) := by
  refine ⟨?_, ?_, ?_⟩
  · by_cases h1 : authHeader = ""
    · subst h1
      rw [gate_empty]
      simp
    · by_cases h2 : ∃ tok, authHeader = "Bearer " ++ tok
      · obtain ⟨tok, rfl⟩ := h2
        rw [gate_bearer]
        rcases ParseToken_cases lib hlib now (toBytes tok.data) with ⟨c, hc⟩ | ⟨e, he⟩
        · simp [hc, afterParse]
        · simp [he, afterParse]
      · rw [gate_not_bearer lib now authHeader h1 (fun tok h => h2 ⟨tok, h⟩)]
        simp
  · intro _
    rw [SplitN_two]
    cases cut ' ' authHeader.data with
    | none => exact ⟨_, rfl⟩
    | some p => exact ⟨_, rfl⟩
  · intro tok
    rcases ParseToken_cases lib hlib now tok with ⟨c, hc⟩ | ⟨e, he⟩
    · simp [hc]
    · simp [he]

/-- C9, at the imported parser and the header `Bearer x.y.z`. -/
theorem gate_never_panics_witness :
    Effect.panic ∉ JWTAuthMiddleware jwtv4 0 "Bearer x.y.z" :=
  (gate_never_panics jwtv4 jwtv4_nilError 0 "Bearer x.y.z").1

/-! ## C10: the todo handlers on an empty field -/

/-- C10 fails on the code: `POST /todos` with an empty title replies 400 and then, for want of
a `return`, stores the todo and replies 200 with it; `PUT /todos/1` with an empty description
replies 400 and then overwrites the stored todo and replies 200 with it. -/
theorem empty_field_is_still_written :
    postTodos [] 7
        (some
          { ID := 0, CreatedAt := none, UpdatedAt := none, DeletedAt := none, Title := "",
            Description := "x" }) =
      ([.error 400 "Title and description cannot be empty",
        .todo 200
          { ID := 1, CreatedAt := some 7, UpdatedAt := some 7, DeletedAt := none, Title := "",
            Description := "x" }],
       [{ ID := 1, CreatedAt := some 7, UpdatedAt := some 7, DeletedAt := none, Title := "",
          Description := "x" }])
    ∧ putTodo
        [{ ID := 1, CreatedAt := some 7, UpdatedAt := some 7, DeletedAt := none, Title := "a",
           Description := "b" }]
        9 1
        (some
          { ID := 0, CreatedAt := none, UpdatedAt := none, DeletedAt := none, Title := "t",
            Description := "" }) =
      ([.error 400 "Title and description cannot be empty",
        .todo 200
          { ID := 1, CreatedAt := some 7, UpdatedAt := some 9, DeletedAt := none, Title := "t",
            Description := "" }],
       [{ ID := 1, CreatedAt := some 7, UpdatedAt := some 9, DeletedAt := none, Title := "t",
          Description := "" }]) := by
  decide

end GinJwt
